import Mathlib

/-!
# biscuit: `kms init` and `kms grants list`

A shallow embedding of `commands/awskms/kmsinit.go` (with `createAndWait` of
`cfhelper.go`) and of the grant fold of `commands/awskms/kmsgrantslist.go`, and
verification of the principal canonicaliser, region prober, provisioning gate,
concurrent provisioner, key template reconciler and grant aggregator.

Conventions of the embedding:

* a Go `string` is a Lean `String`; Go compares and sorts strings bytewise,
  which on valid UTF-8 is the order of the code point sequences used here;
* a Go `map[K]V` is an association list without repeated keys, updated in
  place (`mapSet`); Go leaves the iteration order of a map unspecified, so
  results that depend on it are stated for every permutation;
* a Go `error` is an `Option String`: `none` is `nil`;
* remote services are oracles (`Remote`); every remote request a function
  issues is appended to a list of `Call`s returned with its result;
* the goroutines of the provisioner run in an interleaving given as a list of
  `Step`s; each goroutine has two steps, the assignment of its result and the
  test of the shared error.
-/

namespace Biscuit

/-! ## Go standard library -/

/-- Go `unicode.IsSpace`: the code points with the Unicode White_Space property. -/
def unicode_IsSpace (c : Char) : Bool :=
  let n := c.toNat
  (0x09 ≤ n && n ≤ 0x0d) || n == 0x20 || n == 0x85 || n == 0xA0 || n == 0x1680 ||
  (0x2000 ≤ n && n ≤ 0x200a) || n == 0x2028 || n == 0x2029 || n == 0x202f ||
  n == 0x205f || n == 0x3000

/-- Go `strings.TrimSpace`: drop leading and trailing white space. -/
def strings_TrimSpace (s : String) : String :=
  ⟨List.rdropWhile unicode_IsSpace (List.dropWhile unicode_IsSpace s.data)⟩

/-- Go `strings.HasPrefix`. -/
def strings_HasPrefix (s pre : String) : Bool :=
  pre.data.isPrefixOf s.data

/-- Pieces of a character list between occurrences of `sep`. -/
def splitChars (sep : Char) : List Char → List (List Char)
  | [] => [[]]
  | c :: cs =>
    if c = sep then [] :: splitChars sep cs
    else
      match splitChars sep cs with
      | [] => [[c]]
      | w :: ws => (c :: w) :: ws

/-- Go `strings.Split` for a one-character separator: `strings.Split("", ",")`
is `[""]`, and n separators give n+1 pieces. -/
def strings_Split (s : String) (sep : Char) : List String :=
  (splitChars sep s.data).map String.mk

/-- Go `sort.Strings`: ascending lexicographic order. -/
def sort_Strings (l : List String) : List String :=
  l.insertionSort (fun a b => a.data ≤ b.data)

/-- Go `len(s)` of a string is zero exactly when `s` is empty. -/
def lenIsZero (s : String) : Bool := s.data.isEmpty

/-! ## Go maps -/

/-- Assignment `m[k] = v`: overwrite the entry of `k`, or add one. -/
def mapSet {α : Type} (m : List (String × α)) (k : String) (v : α) : List (String × α) :=
  match m with
  | [] => [(k, v)]
  | (k', v') :: rest =>
    if k' = k then (k, v) :: rest else (k', v') :: mapSet rest k v

/-- Lookup `m[k]` with its presence flag. -/
def mapGet {α : Type} (m : List (String × α)) (k : String) : Option α :=
  match m with
  | [] => none
  | (k', v') :: rest => if k' = k then some v' else mapGet rest k

/-- Values of a map, in one iteration order. -/
def mapValues {α : Type} (m : List (String × α)) : List α := m.map Prod.snd

/-- Keys of a map, in one iteration order. -/
def mapKeys {α : Type} (m : List (String × α)) : List String := m.map Prod.fst

/-! ## ARN canonicaliser (`kmsinit.go`) -/

/-- `cleanArn` of `kmsinit.go`. -/
def cleanArn (accountID arn : String) : String :=
  let arn := strings_TrimSpace arn
  if lenIsZero arn then ""
  else if strings_HasPrefix arn "arn:" then arn
  else if !(strings_HasPrefix arn "user/" || strings_HasPrefix arn "role/") then
    "arn:aws:iam::" ++ accountID ++ ":user/" ++ arn
  else
    "arn:aws:iam::" ++ accountID ++ ":" ++ arn

/-- `stringsetToList` of `kmsinit.go`; the set `map[string]struct{}` is given
by the list of its keys. -/
def stringsetToList (input : List String) : List String :=
  sort_Strings input

/-- Assignment `cleaned[arn] = struct{}{}` on a set of strings. -/
def setAdd (s : List String) (x : String) : List String :=
  if x ∈ s then s else s ++ [x]

/-- `cleanArnList` of `kmsinit.go`. -/
def cleanArnList (accountID arns : String) : List String :=
  let cleaned := (strings_Split arns ',').foldl
    (fun cleaned arn =>
      let arn := cleanArn accountID arn
      if !lenIsZero arn then setAdd cleaned arn else cleaned) []
  stringsetToList cleaned

/-- `validateArnList` of `kmsinit.go`. -/
def validateArnList (arns : List String) : Option String :=
  if arns.length = 0 then some "There must be at least one entry." else none

/-! ## Key template reconciler (`kmsInit.Run`, lines 97-120) -/

/-- The embedded `store.Key` of a template entry, as `Run` builds it. -/
structure Key where
  KeyID : String
  KeyManager : String
  Algorithm : String
deriving DecidableEq, Repr

/-- Modelled from the spec: `store.Value` is declared outside the files at hand;
`Run` shows that it embeds `store.Key`, and the collaborator contract of the
secret store lists further fields, kept here as one payload `rest` whose zero
value is the empty string. -/
structure Value extends Key where
  rest : String
deriving DecidableEq, Repr

/-- The composite literal `store.Value{Key: store.Key{KeyID: keyArn,
KeyManager: keymanager.KmsLabel, Algorithm: *w.algorithm}}`. -/
def kmsValue (KmsLabel algorithm keyArn : String) : Value :=
  { KeyID := keyArn, KeyManager := KmsLabel, Algorithm := algorithm, rest := "" }

/-- First loop of the reconciliation: `keyIDToValue[KmsLabel+value.KeyID] = value`
for every entry of the existing template, in order. `KmsLabel` is the constant
`keymanager.KmsLabel`, declared outside the files at hand. -/
def seedKeyIDToValue (KmsLabel : String) (keyConfigs : List Value) : List (String × Value) :=
  keyConfigs.foldl (fun m value => mapSet m (KmsLabel ++ value.KeyID) value) []

/-- Second loop: for every `keyArn` of `regionKeys` (a map region -> key),
`keyIDToValue[KmsLabel+keyArn]` is set to the fresh KMS entry. -/
def setDiscoveredKeys (KmsLabel algorithm : String) (m : List (String × Value))
    (regionKeys : List (String × String)) : List (String × Value) :=
  regionKeys.foldl (fun m rk => mapSet m (KmsLabel ++ rk.2) (kmsValue KmsLabel algorithm rk.2)) m

/-- The map `keyIDToValue` after both loops. -/
def keyIDToValue (KmsLabel algorithm : String) (keyConfigs : List Value)
    (regionKeys : List (String × String)) : List (String × Value) :=
  setDiscoveredKeys KmsLabel algorithm (seedKeyIDToValue KmsLabel keyConfigs) regionKeys

/-- Third loop: `updatedTemplate`, the values of `keyIDToValue` in one
iteration order. -/
def updatedTemplate (KmsLabel algorithm : String) (keyConfigs : List Value)
    (regionKeys : List (String × String)) : List Value :=
  mapValues (keyIDToValue KmsLabel algorithm keyConfigs regionKeys)

/-- Whether `out` is a template `Run` may hand to `database.Put`: the values of
`keyIDToValue` in some iteration order. -/
def isWrittenTemplate (KmsLabel algorithm : String) (keyConfigs : List Value)
    (regionKeys : List (String × String)) (out : List Value) : Bool :=
  decide (out.Perm (updatedTemplate KmsLabel algorithm keyConfigs regionKeys))

/-- The shape of `keyIDToValue`: no key twice, and every entry stored under
`KmsLabel + KeyID` of its own value. -/
def KeyedByID (KmsLabel : String) (m : List (String × Value)) : Prop :=
  (mapKeys m).Nodup ∧ ∀ e ∈ m, e.1 = KmsLabel ++ e.2.KeyID

/-! ## Remote services -/

/-- Go `strings.Contains`. -/
def strings_Contains (s sub : String) : Bool :=
  decide (sub.data <:+: s.data)

/-- Go `strings.Join`. -/
def strings_Join (l : List String) (sep : String) : String :=
  sep.intercalate l

/-- One alias record of a `ListAliases` page. -/
structure AliasRecord where
  AliasName : String
  AliasArn : String
  TargetKeyId : String
deriving DecidableEq, Repr

/-- The type `cloudformationStack` of `cfhelper.go`. -/
structure cloudformationStack where
  region : String
  stackName : String
  params : List (String × String)
  templateBody : Option String
  templateURL : Option String
deriving DecidableEq, Repr

/-- Reply of `DescribeStacks`: the stacks with their outputs, an
`awserr.Error` with code and message, or another error. -/
inductive DescribeStacksReply where
  | ok (found : List (List (String × String)))
  | awsErr (code message : String)
  | otherErr (text : String)
deriving DecidableEq, Repr

/-- The text of the error of a `DescribeStacks` reply, `nil` for `ok`. -/
def DescribeStacksReply.err : DescribeStacksReply → Option String
  | .ok _ => none
  | .awsErr code message => some (code ++ ": " ++ message)
  | .otherErr text => some text

/-- A request sent to a remote service. -/
inductive Call where
  | DescribeStacks (region stackName : String)
  | ListAliasesPages (region : String)
  | DescribeKey (region keyId : String)
  | GetCallerIdentity
  | CreateStack (specs : cloudformationStack)
  | WaitUntilStackCreateComplete (region stackId : String)
  | CreateAlias (region aliasName keyArn : String)
  | GetAliasByName (region aliasName : String)
deriving DecidableEq, Repr

/-- Whether a request is one of the read-only requests of the prober. -/
def Call.isProbe : Call → Bool
  | .DescribeStacks _ _ => true
  | .ListAliasesPages _ => true
  | .DescribeKey _ _ => true
  | _ => false

/-- The remote services, as the replies they give. `ListAliasesPages` gives
the pages it delivers and the error that ends the paging, if any;
`DescribeKey` gives `KeyMetadata.Enabled`; `GetCallerIdentity` gives the
account and the ARN of the caller. Sessions are taken to be available
(`GetNewSessionWithRegion` ends the process otherwise). -/
structure Remote where
  DescribeStacks : String → String → DescribeStacksReply
  ListAliasesPages : String → List (List AliasRecord) × Option String
  DescribeKey : String → String → Except String Bool
  GetCallerIdentity : Except String (String × String)
  CreateStack : cloudformationStack → Except String String
  WaitUntilStackCreateComplete : String → String → Option String
  CreateAlias : String → String → String → Option String
  GetAliasByName : String → String → Except String (Option AliasRecord)

/-! ## Region prober (`kmsinit.go`) -/

/-- `checkCloudFormationStackExists` of `kmsinit.go`: the flag, the error and
the requests sent. -/
def checkCloudFormationStackExists (R : Remote) (stackName region : String) :
    (Bool × Option String) × List Call :=
  let calls := [Call.DescribeStacks region stackName]
  match R.DescribeStacks region stackName with
  | .ok _ => ((true, none), calls)
  | .awsErr code message =>
    if code = "ValidationError" && strings_Contains message "does not exist" then
      ((false, none), calls)
    else ((false, some (code ++ ": " ++ message)), calls)
  | .otherErr text => ((false, some text), calls)

/-- The variables captured by the callback `fp` of `checkKmsKeyExists`, with
the requests sent so far. -/
structure AliasScan where
  foundAliasArn : String
  callbackErr : Option String
  calls : List Call
deriving DecidableEq, Repr

/-- The error `checkKmsKeyExists` builds for a disabled key. -/
def disabledKeyError (keyAlias region : String) : String :=
  "There is a KMS key in " ++ region ++ " with a matching alias, but the key is " ++
  "disabled. If the alias is no longer in use, you may try again after deleting the alias" ++
  ". To delete the alias, run: aws --region " ++ region ++ " kms delete-alias --alias-name " ++
  keyAlias ++ "\n"

/-- The callback `fp` on the alias records of one page: whether paging goes
on, and the captured variables. -/
def fp (R : Remote) (keyAlias region : String) :
    List AliasRecord → AliasScan → Bool × AliasScan
  | [], st => (true, st)
  | aliasRecord :: rest, st =>
    if aliasRecord.AliasName ≠ keyAlias then fp R keyAlias region rest st
    else
      let calls := st.calls ++ [Call.DescribeKey region aliasRecord.TargetKeyId]
      match R.DescribeKey region aliasRecord.TargetKeyId with
      | .error err => (false, { st with callbackErr := some err, calls := calls })
      | .ok enabled =>
        if !enabled then
          (false, { st with callbackErr := some (disabledKeyError keyAlias region),
                            calls := calls })
        else
          fp R keyAlias region rest { st with foundAliasArn := aliasRecord.AliasArn,
                                              calls := calls }

/-- The paging loop of `ListAliasesPages`: pages are handed to the callback
until it returns false. The flag tells whether every page was handed over. -/
def pageLoop (R : Remote) (keyAlias region : String) :
    List (List AliasRecord) → AliasScan → Bool × AliasScan
  | [], st => (true, st)
  | page :: rest, st =>
    match fp R keyAlias region page st with
    | (true, st') => pageLoop R keyAlias region rest st'
    | (false, st') => (false, st')

/-- `checkKmsKeyExists` of `kmsinit.go`: the alias ARN found, the error and the
requests sent. The error of `ListAliasesPages` is that of the paging when the
callback did not stop it. -/
def checkKmsKeyExists (R : Remote) (keyAlias region : String) :
    (String × Option String) × List Call :=
  let reply := R.ListAliasesPages region
  let start : AliasScan :=
    { foundAliasArn := "", callbackErr := none, calls := [Call.ListAliasesPages region] }
  let (finished, st) := pageLoop R keyAlias region reply.1 start
  let listErr := if finished then reply.2 else none
  match listErr with
  | some err => ((st.foundAliasArn, some err), st.calls)
  | none => ((st.foundAliasArn, st.callbackErr), st.calls)

/-- The error `collectRegionInfo` records for a stack without key alias. -/
def inconsistentError (stackName keyAlias region : String) : String :=
  "A CloudFormation stack named '" ++ stackName ++ "' exists, but the corresponding " ++
  "key alias '" ++ keyAlias ++ "' does not. The most likely cause of this is that a key " ++
  "was incompletely deleted. You can resolve this by deleting the stack " ++
  "or by using an alternate label. To delete the stack, run: aws --region " ++ region ++
  " cloudformation delete-stack --stack-name " ++ stackName ++ ". "

/-- The assignment `regionErrors[region] = append(regionErrors[region], err)`. -/
def appendError (regionErrors : List (String × List String)) (region err : String) :
    List (String × List String) :=
  mapSet regionErrors region ((mapGet regionErrors region).getD [] ++ [err])

/-- The variables of `collectRegionInfo`, with the requests sent so far. -/
structure RegionInfo where
  regionErrors : List (String × List String)
  regionKeys : List (String × String)
  regionsMissing : List String
  calls : List Call
deriving DecidableEq, Repr

/-- One iteration of the loop over the regions in `collectRegionInfo`. -/
def collectRegion (R : Remote) (stackName keyAlias : String) (st : RegionInfo)
    (region : String) : RegionInfo :=
  let stack := checkCloudFormationStackExists R stackName region
  let (regionErrors₁, stackExists) :=
    match stack.1.2 with
    | some err => (appendError st.regionErrors region err, false)
    | none => (st.regionErrors, stack.1.1)
  let key := checkKmsKeyExists R keyAlias region
  let regionKey := key.1.1
  let (regionErrors₂, keyExists, regionKeys, regionsMissing) :=
    match key.1.2 with
    | some err => (appendError regionErrors₁ region err, false, st.regionKeys, st.regionsMissing)
    | none =>
      if !lenIsZero regionKey then
        (regionErrors₁, true, mapSet st.regionKeys region regionKey, st.regionsMissing)
      else
        (regionErrors₁, false, st.regionKeys, st.regionsMissing ++ [region])
  let regionErrors₃ :=
    if !keyExists && stackExists then
      appendError regionErrors₂ region (inconsistentError stackName keyAlias region)
    else regionErrors₂
  { regionErrors := regionErrors₃, regionKeys := regionKeys, regionsMissing := regionsMissing,
    calls := st.calls ++ stack.2 ++ key.2 }

/-- The loop over the regions in `collectRegionInfo`. -/
def collectRegions (R : Remote) (stackName keyAlias : String) (regions : List String) :
    RegionInfo :=
  regions.foldl (collectRegion R stackName keyAlias)
    { regionErrors := [], regionKeys := [], regionsMissing := [], calls := [] }

/-- The returned error of `collectRegionInfo`: set in every iteration over
`regionErrors`, so `nil` exactly when that map is empty. -/
def aggregateError (regionErrors : List (String × List String)) : Option String :=
  regionErrors.foldl (fun _ _ => some "Please manually resolve the issues and try again.") none

/-- `collectRegionInfo` of `kmsinit.go`: `regionKeys`, `regionsMissing`, the
error, and the requests sent. -/
def collectRegionInfo (R : Remote) (stackName keyAlias : String) (regions : List String) :
    (List (String × String) × List String × Option String) × List Call :=
  let st := collectRegions R stackName keyAlias regions
  ((st.regionKeys, st.regionsMissing, aggregateError st.regionErrors), st.calls)

/-! ## Provisioner (`kmsinit.go`, `cfhelper.go`) -/

/-- The receiver `kmsInit` of `kmsinit.go`, with its flags dereferenced. -/
structure kmsInit where
  regions : List String
  label : String
  createMissingKeys : Bool
  createSimpleRoles : Bool
  disableIam : Bool
  administratorArns : String
  userArns : String
  algorithm : String
  cloudformationTemplateURL : String
  keyCloudformationTemplate : String
deriving DecidableEq, Repr

/-- `truefalse` of `kmsinit.go`. -/
def truefalse (iff : Bool) : String :=
  if iff then "true" else "false"

/-- `createAndWait` of `cfhelper.go`: the outputs of the created stack, or the
error, and the requests sent. -/
def createAndWait (R : Remote) (s : cloudformationStack) :
    Except String (List (String × String)) × List Call :=
  let calls₁ := [Call.CreateStack s]
  match R.CreateStack s with
  | .error err => (.error err, calls₁)
  | .ok stackId =>
    let calls₂ := calls₁ ++ [Call.WaitUntilStackCreateComplete s.region stackId]
    match R.WaitUntilStackCreateComplete s.region stackId with
    | some err => (.error err, calls₂)
    | none =>
      let calls₃ := calls₂ ++ [Call.DescribeStacks s.region stackId]
      match R.DescribeStacks s.region stackId with
      | .awsErr code message => (.error (code ++ ": " ++ message), calls₃)
      | .otherErr text => (.error text, calls₃)
      | .ok [] =>
        (.error ("DescribeStacks returned an empty stack list for " ++ stackId ++ "."), calls₃)
      | .ok (first :: _) =>
        (.ok (first.foldl (fun outputs output => mapSet outputs output.1 output.2) []), calls₃)

/-- `createAlias` of `kmsinit.go`. -/
def createAlias (R : Remote) (region aliasName keyArn : String) :
    (String × Option String) × List Call :=
  let calls₁ := [Call.CreateAlias region aliasName keyArn]
  match R.CreateAlias region aliasName keyArn with
  | some err => (("", some err), calls₁)
  | none =>
    let calls₂ := calls₁ ++ [Call.GetAliasByName region aliasName]
    match R.GetAliasByName region aliasName with
    | .error err => (("", some err), calls₂)
    | .ok none => (("", some "failed to discover ARN of new alias"), calls₂)
    | .ok (some aliasListEntry) => ((aliasListEntry.AliasArn, none), calls₂)

/-- `createKeyInRegion` of `kmsinit.go`: the ARN of the alias and the error,
and the requests sent. -/
def createKeyInRegion (R : Remote) (w : kmsInit) (region stackName aliasName : String)
    (finalAdminArns finalUserArns : List String) : (String × Option String) × List Call :=
  let params : List (String × String) :=
    [("AdministratorPrincipals", strings_Join finalAdminArns ","),
     ("UserPrincipals", strings_Join finalUserArns ","),
     ("KeyDescription", "Key used for securing secrets (" ++ w.label ++ ")."),
     ("CreateSimpleRoles", truefalse w.createSimpleRoles),
     ("AllowIAMPoliciesToControlKeyAccess", truefalse (!w.disableIam))]
  let specs : cloudformationStack :=
    if !lenIsZero w.cloudformationTemplateURL then
      { region := region, stackName := stackName, params := params,
        templateBody := none, templateURL := some w.cloudformationTemplateURL }
    else
      { region := region, stackName := stackName, params := params,
        templateBody := some w.keyCloudformationTemplate, templateURL := none }
  match createAndWait R specs with
  | (.error err, calls) => (("", some err), calls)
  | (.ok outputs, calls) =>
    let keyArn := (mapGet outputs "KeyArn").getD ""
    if keyArn = "" then
      (("", some ("Stack " ++ stackName ++ " does not have an Output named KeyArn.")), calls)
    else
      let made := createAlias R region aliasName keyArn
      (made.1, calls ++ made.2)

/-- `constructArns` of `kmsinit.go`: the administrator and user lists, or the
error, and the requests sent. -/
def constructArns (R : Remote) (w : kmsInit) :
    Except String (List String × List String) × List Call :=
  let calls := [Call.GetCallerIdentity]
  match R.GetCallerIdentity with
  | .error err => (.error err, calls)
  | .ok (awsAccountID, callerArn) =>
    let adminArns := cleanArnList awsAccountID (w.administratorArns ++ "," ++ callerArn)
    match validateArnList adminArns with
    | some err => (.error ("Administrator ARNs: " ++ err), calls)
    | none =>
      let userArns := cleanArnList awsAccountID (w.userArns ++ "," ++ callerArn)
      match validateArnList userArns with
      | some err => (.error ("User ARNs: " ++ err), calls)
      | none => (.ok (adminArns, userArns), calls)

/-- The two steps of the goroutine started for a region: `assign` is the
assignment `existingAliases[region], err = w.createKeyInRegion(...)`, `check`
is the test `if err != nil` with its send on `errs`. -/
inductive Step where
  | assign (region : String)
  | check (region : String)
deriving DecidableEq, Repr

/-- What the goroutines of `discoverOrCreateKeys` share: the map, the
variable `err` of the enclosing block, the channel `errs`, and the requests
sent so far. -/
structure Provisioning where
  existingAliases : List (String × String)
  err : Option String
  errs : List String
  calls : List Call
deriving DecidableEq, Repr

/-- One step of one goroutine. -/
def goroutineStep (R : Remote) (w : kmsInit) (stackName aliasName : String)
    (finalAdminArns finalUserArns : List String) (st : Provisioning) : Step → Provisioning
  | .assign region =>
    let created := createKeyInRegion R w region stackName aliasName finalAdminArns finalUserArns
    { st with existingAliases := mapSet st.existingAliases region created.1.1,
              err := created.1.2,
              calls := st.calls ++ created.2 }
  | .check region =>
    match st.err with
    | some err => { st with errs := st.errs ++ [region ++ ": " ++ err] }
    | none => st

/-- The loop `for err = range errs`: `err` ends as the last error received,
and keeps its value when the channel is empty. -/
def rangeErrs (err : Option String) (errs : List String) : Option String :=
  errs.foldl (fun _ e => some e) err

/-- The message of the policy gate of `discoverOrCreateKeys`. -/
def gateError (w : kmsInit) (existing : Nat) : String :=
  "You've requested to use " ++ toString w.regions.length ++ " regions, but " ++
  toString existing ++ " regions already have keys provisioned for label '" ++ w.label ++
  "'. If you'd like the additional regions to be provisioned, re-run " ++
  "this command with the --create-missing-keys flag. If you'd like to use a new set of keys, " ++
  "re-run with the --label flag. If you'd like to choose a different set of regions, use" ++
  "the --regions flag. Run 'biscuit kms init --help' for more information."

/-- `discoverOrCreateKeys` of `kmsinit.go`: the map (`none` for `nil`), the
error, and the requests sent. `kmsAliasName` and `cfStackName` are functions
of the package outside the files at hand. The goroutines of the provisioning
phase run in the interleaving `sched`. -/
def discoverOrCreateKeys (R : Remote) (kmsAliasName cfStackName : String → String)
    (w : kmsInit) (sched : List Step) :
    (Option (List (String × String)) × Option String) × List Call :=
  let aliasName := kmsAliasName w.label
  let stackName := cfStackName w.label
  let info := collectRegionInfo R stackName aliasName w.regions
  let existingAliases := info.1.1
  let regionsMissingKeys := info.1.2.1
  match info.1.2.2 with
  | some err => ((none, some err), info.2)
  | none =>
    if existingAliases.length > 0 && regionsMissingKeys.length > 0 && !w.createMissingKeys then
      ((none, some (gateError w existingAliases.length)), info.2)
    else if existingAliases.length = 0 || w.createMissingKeys then
      match constructArns R w with
      | (.error err, calls) => ((none, some err), info.2 ++ calls)
      | (.ok (finalAdminArns, finalUserArns), calls) =>
        let start : Provisioning :=
          { existingAliases := existingAliases, err := none, errs := [],
            calls := info.2 ++ calls }
        let st := sched.foldl
          (goroutineStep R w stackName aliasName finalAdminArns finalUserArns) start
        match rangeErrs st.err st.errs with
        | some err => ((none, some err), st.calls)
        | none => ((some st.existingAliases, none), st.calls)
    else ((some existingAliases, none), info.2)

/-! ## Properties of a region, read off the replies of the remote services -/

/-- The alias query of a region ends without error and without alias ARN. -/
def aliasQueryEmpty (R : Remote) (keyAlias region : String) : Bool :=
  decide ((checkKmsKeyExists R keyAlias region).1 = ("", none))

/-- The alias query of a region ends without error and with an alias ARN. -/
def aliasFound (R : Remote) (keyAlias region : String) : Bool :=
  (checkKmsKeyExists R keyAlias region).1.2.isNone &&
    !lenIsZero (checkKmsKeyExists R keyAlias region).1.1

/-- Some delivered page of the region lists an alias named `keyAlias`. -/
def aliasListed (R : Remote) (keyAlias region : String) : Bool :=
  (R.ListAliasesPages region).1.any (fun page => page.any (fun a => a.AliasName = keyAlias))

/-- A region has a region-level error: its stack query failed, its alias
query failed (a disabled key included), or its stack exists while no alias
ARN was found. -/
def regionHasError (R : Remote) (stackName keyAlias region : String) : Bool :=
  (checkCloudFormationStackExists R stackName region).1.2.isSome ||
  (checkKmsKeyExists R keyAlias region).1.2.isSome ||
  ((checkCloudFormationStackExists R stackName region).1.1 &&
    lenIsZero (checkKmsKeyExists R keyAlias region).1.1)

/-- Sample services: `us-east-1` has the stack and an enabled key under the
alias, every other region has neither. -/
def sampleRemote : Remote where
  DescribeStacks := fun region name =>
    if region = "us-east-1" then .ok [[("KeyArn", "arn:aws:kms:us-east-1:123:key/k1")]]
    else .awsErr "ValidationError" ("Stack with id " ++ name ++ " does not exist")
  ListAliasesPages := fun region =>
    if region = "us-east-1" then
      ([[{ AliasName := "alias/aws/s3", AliasArn := "arn:aws:kms:us-east-1:123:alias/aws/s3",
           TargetKeyId := "k0" }],
        [{ AliasName := "alias/biscuit-default",
           AliasArn := "arn:aws:kms:us-east-1:123:alias/biscuit-default",
           TargetKeyId := "k1" }]], none)
    else ([], none)
  DescribeKey := fun _ _ => .ok true
  GetCallerIdentity := .ok ("123", "arn:aws:iam::123:user/me")
  CreateStack := fun s => .ok ("id-" ++ s.region)
  WaitUntilStackCreateComplete := fun _ _ => none
  CreateAlias := fun _ _ _ => none
  GetAliasByName := fun region name =>
    .ok (some { AliasName := name, AliasArn := "arn:aws:kms:" ++ region ++ ":123:" ++ name,
                TargetKeyId := "k" })

/-- Sample services as `sampleRemote`, but every key is disabled. -/
def disabledKeyRemote : Remote :=
  { sampleRemote with DescribeKey := fun _ _ => .ok false }

/-- Sample services as `sampleRemote`, but no region lists any alias. -/
def staleStackRemote : Remote :=
  { sampleRemote with ListAliasesPages := fun _ => ([], none) }

/-- A sample command: two regions, label `default`, no flag set. -/
def sampleInit : kmsInit :=
  { regions := ["us-east-1", "us-west-2"], label := "default", createMissingKeys := false,
    createSimpleRoles := false, disableIam := false, administratorArns := "", userArns := "",
    algorithm := "aesgcm256", cloudformationTemplateURL := "", keyCloudformationTemplate := "T" }

/-! ## Grant aggregator (`kmsgrantslist.go`) -/

/-- The fields of a `kms.GrantListEntry` that `kmsGrantsList.Run` reads. `Name`
and `GrantId` are dereferenced by `Run` and taken to be set; the other
pointers are copied as they are. `Constraints` is the
`EncryptionContextSubset` of the constraints, `none` when there are none. -/
structure GrantListEntry where
  Name : String
  GrantId : String
  GranteePrincipal : Option String
  RetiringPrincipal : Option String
  Operations : List String
  Constraints : Option (List (String × String))
deriving DecidableEq, Repr

/-- The type `grantsForOneAlias` of `kmsgrantslist.go`; `GrantIds` is a map
region -> grant identifier. -/
structure grantsForOneAlias where
  GranteePrincipal : Option String
  RetiringPrincipal : Option String
  EncryptionContextSubset : List (String × String)
  Operations : List String
  GrantIds : List (String × String)
deriving DecidableEq, Repr

/-- The body of the inner loop of `Run` (lines 61-75) for one grant of one
region. The map `GrantIds` of a present entry is shared with the entry kept
in `n2e`, so the assignment to it updates that entry. -/
def addGrant (region : String) (n2e : List (String × grantsForOneAlias))
    (grant : GrantListEntry) : List (String × grantsForOneAlias) :=
  match mapGet n2e grant.Name with
  | some entry =>
    mapSet n2e grant.Name { entry with GrantIds := mapSet entry.GrantIds region grant.GrantId }
  | none =>
    mapSet n2e grant.Name
      { GranteePrincipal := grant.GranteePrincipal,
        RetiringPrincipal := grant.RetiringPrincipal,
        Operations := grant.Operations,
        EncryptionContextSubset := grant.Constraints.getD [],
        GrantIds := mapSet [] region grant.GrantId }

/-- The map `n2e` that `Run` builds for one alias (lines 58-77) from
`regionGrants`, the grants listed for each region, visited in list order. -/
def n2e (regionGrants : List (String × List GrantListEntry)) :
    List (String × grantsForOneAlias) :=
  regionGrants.foldl (fun n2e rg => rg.2.foldl (addGrant rg.1) n2e) []

/-- The grant records of a listing with their regions, in the order in which
`Run` visits them. -/
def grantRecords (regionGrants : List (String × List GrantListEntry)) :
    List (String × GrantListEntry) :=
  (regionGrants.map (fun rg => rg.2.map (fun g => (rg.1, g)))).flatten

/-- The identifier of the last record of the given name and region, if any. -/
def lastGrantId (records : List (String × GrantListEntry)) (name region : String) :
    Option String :=
  records.foldl
    (fun acc p => if p.1 = region ∧ p.2.Name = name then some p.2.GrantId else acc) none

/-- A grant with the given name and identifier, for examples. -/
def sampleGrant (name id : String) : GrantListEntry :=
  { Name := name, GrantId := id, GranteePrincipal := some "arn:aws:iam::123:role/app",
    RetiringPrincipal := none, Operations := ["Decrypt"], Constraints := none }

/-- The identifier that the entry of `name` in `m` gives for `region`, if the
entry exists and maps the region. -/
def grantIdAt (m : List (String × grantsForOneAlias)) (name region : String) : Option String :=
  (mapGet m name).bind (fun e => mapGet e.GrantIds region)

/-! ## Schedules of the provisioning goroutines -/

/-- Whether every `check` of a region comes after an `assign` of that region
that no earlier `check` has used; `pending` holds the regions assigned and not
yet checked. -/
def checksFollowAssigns : List String → List Step → Bool
  | _, [] => true
  | pending, .assign region :: rest => checksFollowAssigns (region :: pending) rest
  | pending, .check region :: rest =>
    pending.contains region && checksFollowAssigns (pending.erase region) rest

/-- Whether `sched` is an interleaving of the goroutines started for
`regionsMissingKeys`: the two steps of every goroutine, each goroutine in its
own order. -/
def isSchedule (regionsMissingKeys : List String) (sched : List Step) : Bool :=
  decide (sched.Perm
    (regionsMissingKeys.map (fun r => [Step.assign r, Step.check r])).flatten) &&
  checksFollowAssigns [] sched

/-- The schedule in which the goroutines run to completion one after another,
in the order `order`. -/
def unitSchedule (order : List String) : List Step :=
  (order.map (fun r => [Step.assign r, Step.check r])).flatten

/-- Sample services for a first provisioning: no region has a stack or an
alias; `CreateStack` is refused in `eu-west-1` and succeeds elsewhere. -/
def raceRemote : Remote where
  DescribeStacks := fun region name =>
    if name = "id-" ++ region then
      .ok [[("KeyArn", "arn:aws:kms:" ++ region ++ ":123:key/new")]]
    else .awsErr "ValidationError" ("Stack with id " ++ name ++ " does not exist")
  ListAliasesPages := fun _ => ([], none)
  DescribeKey := fun _ _ => .ok true
  GetCallerIdentity := .ok ("123", "arn:aws:iam::123:user/me")
  CreateStack := fun s =>
    if s.region = "eu-west-1" then .error "AccessDenied" else .ok ("id-" ++ s.region)
  WaitUntilStackCreateComplete := fun _ _ => none
  CreateAlias := fun _ _ _ => none
  GetAliasByName := fun region name =>
    .ok (some { AliasName := name, AliasArn := "arn:aws:kms:" ++ region ++ ":123:" ++ name,
                TargetKeyId := "new" })

/-- A sample command for the regions `eu-west-1` and `us-west-2`. -/
def raceInit : kmsInit :=
  { sampleInit with regions := ["eu-west-1", "us-west-2"] }

/-! ## Lemmas: strings -/

theorem isSpace_a : unicode_IsSpace 'a' = false := by decide

theorem trim_data (s : String) :
    (strings_TrimSpace s).data =
      List.rdropWhile unicode_IsSpace (List.dropWhile unicode_IsSpace s.data) := rfl

/-- A list that neither starts nor ends with white space is its own trim. -/
theorem trim_fixed (l : List Char)
    (hh : ∀ h : l ≠ [], unicode_IsSpace (l.head h) = false)
    (hl : ∀ h : l ≠ [], unicode_IsSpace (l.getLast h) = false) :
    List.rdropWhile unicode_IsSpace (List.dropWhile unicode_IsSpace l) = l := by
  have h1 : List.dropWhile unicode_IsSpace l = l := by
    cases l with
    | nil => rfl
    | cons c cs =>
      have := hh (by simp)
      simp only [List.head_cons] at this
      simp [List.dropWhile_cons, this]
  rw [h1, List.rdropWhile_eq_self_iff]
  intro h
  simp [hl h]

/-- The trim of a list does not start with white space. -/
theorem trim_head (l : List Char)
    (h : List.rdropWhile unicode_IsSpace (List.dropWhile unicode_IsSpace l) ≠ []) :
    unicode_IsSpace ((List.rdropWhile unicode_IsSpace
      (List.dropWhile unicode_IsSpace l)).head h) = false := by
  have hd : List.dropWhile unicode_IsSpace l ≠ [] := by
    intro h0
    rw [h0] at h
    exact h (by simp [List.rdropWhile])
  have h1 := List.head_dropWhile_not unicode_IsSpace l hd
  have hpre : List.rdropWhile unicode_IsSpace (List.dropWhile unicode_IsSpace l) <+:
      List.dropWhile unicode_IsSpace l := List.rdropWhile_prefix _ _
  obtain ⟨t, ht⟩ := hpre
  have : (List.rdropWhile unicode_IsSpace (List.dropWhile unicode_IsSpace l)).head h =
      (List.dropWhile unicode_IsSpace l).head hd := by
    have h2 : (List.rdropWhile unicode_IsSpace (List.dropWhile unicode_IsSpace l) ++ t).head
        (by simp [h]) = (List.dropWhile unicode_IsSpace l).head hd := by
      simp only [ht]
    rw [← h2, List.head_append_of_ne_nil]
  rw [this]
  exact h1

/-- The trim of a list does not end with white space. -/
theorem trim_last (l : List Char)
    (h : List.rdropWhile unicode_IsSpace (List.dropWhile unicode_IsSpace l) ≠ []) :
    unicode_IsSpace ((List.rdropWhile unicode_IsSpace
      (List.dropWhile unicode_IsSpace l)).getLast h) = false := by
  have := List.rdropWhile_last_not unicode_IsSpace (List.dropWhile unicode_IsSpace l) h
  simpa using this

/-- Trimming is idempotent. -/
theorem TrimSpace_idem (s : String) :
    strings_TrimSpace (strings_TrimSpace s) = strings_TrimSpace s := by
  apply String.ext
  rw [trim_data, trim_data]
  exact trim_fixed _ (fun h => trim_head _ h) (fun h => trim_last _ h)

/-- A string that starts with `arn:` and ends like a trimmed non-empty string
is its own trim. -/
theorem TrimSpace_arn_append (mid : String) (t : String)
    (ht : (strings_TrimSpace t).data ≠ []) :
    strings_TrimSpace ("arn:" ++ mid ++ strings_TrimSpace t) =
      "arn:" ++ mid ++ strings_TrimSpace t := by
  apply String.ext
  rw [trim_data]
  apply trim_fixed
  · intro h
    simp only [String.data_append]
    have : ("arn:" : String).data = 'a' :: ['r', 'n', ':'] := rfl
    simp only [this, List.cons_append, List.head_cons]
    exact isSpace_a
  · intro h
    have hne : (strings_TrimSpace t).data ≠ [] := ht
    have : (("arn:" : String) ++ mid ++ strings_TrimSpace t).data =
        (("arn:" : String) ++ mid).data ++ (strings_TrimSpace t).data := String.data_append _ _
    simp only [this]
    have hlast : ∀ (l₁ l₂ : List Char) (h₂ : l₂ ≠ []) (h₁ : l₁ ++ l₂ ≠ []),
        (l₁ ++ l₂).getLast h₁ = l₂.getLast h₂ := by
      intro l₁ l₂ h₂ h₁
      exact List.getLast_append_of_ne_nil h₂
    rw [hlast _ _ hne]
    exact trim_last _ hne

theorem HasPrefix_arn_append (rest : String) :
    strings_HasPrefix ("arn:" ++ rest) "arn:" = true := by
  unfold strings_HasPrefix
  rw [List.isPrefixOf_iff_prefix, String.data_append]
  exact List.prefix_append _ _

theorem lenIsZero_iff (s : String) : lenIsZero s = true ↔ s = "" := by
  unfold lenIsZero
  constructor
  · intro h
    apply String.ext
    simpa using h
  · rintro rfl
    rfl

/-- The three non-empty results of `cleanArn`, in one statement. -/
theorem cleanArn_cases (a t : String) :
    (strings_TrimSpace t = "" ∧ cleanArn a t = "") ∨
    (strings_TrimSpace t ≠ "" ∧ strings_HasPrefix (strings_TrimSpace t) "arn:" = true ∧
      cleanArn a t = strings_TrimSpace t) ∨
    (strings_TrimSpace t ≠ "" ∧ strings_HasPrefix (strings_TrimSpace t) "arn:" = false ∧
      ∃ mid : String, cleanArn a t = "arn:" ++ mid ++ strings_TrimSpace t) := by
  by_cases h0 : strings_TrimSpace t = ""
  · left
    refine ⟨h0, ?_⟩
    simp [cleanArn, (lenIsZero_iff _).2 h0]
  · right
    have hz : lenIsZero (strings_TrimSpace t) = false := by
      cases hb : lenIsZero (strings_TrimSpace t) with
      | false => rfl
      | true => exact absurd ((lenIsZero_iff _).1 hb) h0
    by_cases h1 : strings_HasPrefix (strings_TrimSpace t) "arn:" = true
    · left
      refine ⟨h0, h1, ?_⟩
      simp [cleanArn, hz, h1]
    · right
      have h1f : strings_HasPrefix (strings_TrimSpace t) "arn:" = false := by
        simpa using h1
      refine ⟨h0, h1f, ?_⟩
      by_cases h2 : (strings_HasPrefix (strings_TrimSpace t) "user/" ||
          strings_HasPrefix (strings_TrimSpace t) "role/") = true
      · refine ⟨"aws:iam::" ++ a ++ ":", ?_⟩
        have : cleanArn a t = "arn:aws:iam::" ++ a ++ ":" ++ strings_TrimSpace t := by
          simp only [cleanArn, hz, h1f, h2]
          simp
        rw [this]
        apply String.ext
        simp [String.data_append, List.append_assoc]
      · refine ⟨"aws:iam::" ++ a ++ ":user/", ?_⟩
        have h2f : (strings_HasPrefix (strings_TrimSpace t) "user/" ||
          strings_HasPrefix (strings_TrimSpace t) "role/") = false := by
          simpa using h2
        have : cleanArn a t = "arn:aws:iam::" ++ a ++ ":user/" ++ strings_TrimSpace t := by
          simp only [cleanArn, hz, h1f, h2f]
          simp
        rw [this]
        apply String.ext
        simp [String.data_append, List.append_assoc]

/-! ## Lemmas: string sets and sorting -/

theorem setAdd_nodup (s : List String) (x : String) (h : s.Nodup) : (setAdd s x).Nodup := by
  unfold setAdd
  split
  · exact h
  · rename_i hx
    rw [List.nodup_append]
    refine ⟨h, List.nodup_singleton x, ?_⟩
    intro y hy hy1
    rw [List.mem_singleton] at hy1
    subst hy1
    exact hx hy

theorem mem_setAdd (s : List String) (x y : String) : y ∈ setAdd s x ↔ y ∈ s ∨ y = x := by
  unfold setAdd
  split
  · rename_i hx
    constructor
    · intro h
      exact Or.inl h
    · rintro (h | rfl)
      · exact h
      · exact hx
  · simp

/-- The set built by `cleanArnList`: without repetition, without the empty
string, and holding exactly the non-empty canonical forms besides `init`. -/
theorem cleaned_fold (a : String) (l : List String) (init : List String) :
    (init.Nodup → (l.foldl (fun cleaned arn =>
        if !lenIsZero (cleanArn a arn) then setAdd cleaned (cleanArn a arn) else cleaned)
        init).Nodup) ∧
    ∀ y, y ∈ l.foldl (fun cleaned arn =>
        if !lenIsZero (cleanArn a arn) then setAdd cleaned (cleanArn a arn) else cleaned)
        init ↔ (y ∈ init ∨ (y ≠ "" ∧ ∃ t ∈ l, y = cleanArn a t)) := by
  induction l generalizing init with
  | nil => simp
  | cons t ts ih =>
    simp only [List.foldl_cons]
    by_cases hz : lenIsZero (cleanArn a t) = true
    · have hz0 := (lenIsZero_iff _).1 hz
      simp only [hz, Bool.not_true, Bool.false_eq_true, if_false]
      refine ⟨(ih init).1, ?_⟩
      intro y
      rw [(ih init).2 y]
      constructor
      · rintro (h | ⟨h1, u, hu, h2⟩)
        · exact Or.inl h
        · exact Or.inr ⟨h1, u, List.mem_cons_of_mem _ hu, h2⟩
      · rintro (h | ⟨h1, u, hu, h2⟩)
        · exact Or.inl h
        · rcases List.mem_cons.1 hu with rfl | hu
          · exact absurd (h2.trans hz0) h1
          · exact Or.inr ⟨h1, u, hu, h2⟩
    · have hzf : lenIsZero (cleanArn a t) = false := by simpa using hz
      have hne : cleanArn a t ≠ "" := fun h => hz ((lenIsZero_iff _).2 h)
      simp only [hzf, Bool.not_false, if_true]
      refine ⟨fun h => (ih _).1 (setAdd_nodup _ _ h), ?_⟩
      intro y
      rw [(ih _).2 y, mem_setAdd]
      constructor
      · rintro ((h | h) | ⟨h1, u, hu, h2⟩)
        · exact Or.inl h
        · exact Or.inr ⟨h ▸ hne, t, List.mem_cons_self _ _, h⟩
        · exact Or.inr ⟨h1, u, List.mem_cons_of_mem _ hu, h2⟩
      · rintro (h | ⟨h1, u, hu, h2⟩)
        · exact Or.inl (Or.inl h)
        · rcases List.mem_cons.1 hu with rfl | hu
          · exact Or.inl (Or.inr h2)
          · exact Or.inr ⟨h1, u, hu, h2⟩

theorem sort_Strings_perm (l : List String) : (sort_Strings l).Perm l :=
  List.perm_insertionSort _ l

theorem sort_Strings_sorted (l : List String) :
    List.Sorted (fun a b : String => a ≤ b) (sort_Strings l) := by
  have hT : IsTotal String (fun a b => a.data ≤ b.data) := ⟨fun a b => le_total a.data b.data⟩
  have hR : IsTrans String (fun a b => a.data ≤ b.data) :=
    ⟨fun a b c h1 h2 => le_trans (α := List Char) h1 h2⟩
  have h := List.sorted_insertionSort (fun a b : String => a.data ≤ b.data) l
  refine List.Pairwise.imp ?_ h
  intro a b hab
  exact String.le_iff_toList_le.2 hab

/-- The result of `stringsetToList` does not depend on the order in which the
set is iterated. -/
theorem stringsetToList_perm (l₁ l₂ : List String) (h : l₁.Perm l₂) :
    stringsetToList l₁ = stringsetToList l₂ := by
  unfold stringsetToList
  have hp : (sort_Strings l₁).Perm (sort_Strings l₂) :=
    (sort_Strings_perm l₁).trans (h.trans (sort_Strings_perm l₂).symm)
  exact List.eq_of_perm_of_sorted hp (sort_Strings_sorted l₁) (sort_Strings_sorted l₂)

/-- Membership in the result of `cleanArnList`. -/
theorem mem_cleanArnList (a s y : String) :
    y ∈ cleanArnList a s ↔ y ≠ "" ∧ ∃ t ∈ strings_Split s ',', y = cleanArn a t := by
  unfold cleanArnList stringsetToList
  rw [(sort_Strings_perm _).mem_iff, (cleaned_fold a _ []).2 y]
  simp

/-! ## Lemmas: maps -/

theorem mapGet_mapSet {α : Type} (m : List (String × α)) (k k' : String) (v : α) :
    mapGet (mapSet m k v) k' = if k = k' then some v else mapGet m k' := by
  induction m with
  | nil => simp [mapSet, mapGet]
  | cons e rest ih =>
    obtain ⟨k0, v0⟩ := e
    by_cases h0 : k0 = k
    · subst h0
      by_cases h1 : k0 = k'
      · simp [mapSet, mapGet, h1]
      · simp [mapSet, mapGet, h1]
    · simp only [mapSet, h0, if_false, mapGet]
      by_cases h1 : k0 = k'
      · subst h1
        have : ¬ k = k0 := fun h => h0 h.symm
        simp [this]
      · simp [h1, ih]

theorem mapKeys_mapSet_mem {α : Type} (m : List (String × α)) (k x : String) (v : α) :
    x ∈ mapKeys (mapSet m k v) ↔ x = k ∨ x ∈ mapKeys m := by
  induction m with
  | nil => simp [mapSet, mapKeys]
  | cons e rest ih =>
    obtain ⟨k0, v0⟩ := e
    by_cases h0 : k0 = k
    · subst h0
      simp [mapSet, mapKeys]
    · simp only [mapSet, h0, if_false]
      simp only [mapKeys, List.map_cons, List.mem_cons] at ih ⊢
      rw [ih]
      tauto

theorem mapSet_nodup {α : Type} (m : List (String × α)) (k : String) (v : α)
    (h : (mapKeys m).Nodup) : (mapKeys (mapSet m k v)).Nodup := by
  induction m with
  | nil => simp [mapSet, mapKeys]
  | cons e rest ih =>
    obtain ⟨k0, v0⟩ := e
    have hn : k0 ∉ mapKeys rest ∧ (mapKeys rest).Nodup := by
      simpa [mapKeys] using h
    by_cases h0 : k0 = k
    · subst h0
      simpa [mapSet, mapKeys] using h
    · simp only [mapSet, h0, if_false]
      have h1 : k0 ∉ mapKeys (mapSet rest k v) := by
        rw [mapKeys_mapSet_mem]
        rintro (h | h)
        · exact h0 h
        · exact hn.1 h
      have h2 := ih hn.2
      simp only [mapKeys, List.map_cons, List.nodup_cons] at h1 h2 ⊢
      exact ⟨h1, h2⟩

theorem mem_mapSet {α : Type} (m : List (String × α)) (k : String) (v : α) (e : String × α)
    (h : e ∈ mapSet m k v) : e = (k, v) ∨ e ∈ m := by
  induction m with
  | nil =>
    left
    simpa [mapSet] using h
  | cons e0 rest ih =>
    obtain ⟨k0, v0⟩ := e0
    by_cases h0 : k0 = k
    · simp only [mapSet, h0, if_true, List.mem_cons] at h
      rcases h with h | h
      · exact Or.inl h
      · exact Or.inr (List.mem_cons_of_mem _ h)
    · simp only [mapSet, h0, if_false, List.mem_cons] at h
      rcases h with h | h
      · exact Or.inr (h ▸ List.mem_cons_self _ _)
      · rcases ih h with h | h
        · exact Or.inl h
        · exact Or.inr (List.mem_cons_of_mem _ h)

theorem mapGet_eq_none {α : Type} (m : List (String × α)) (k : String) :
    mapGet m k = none ↔ k ∉ mapKeys m := by
  induction m with
  | nil => simp [mapGet, mapKeys]
  | cons e rest ih =>
    obtain ⟨k0, v0⟩ := e
    by_cases h0 : k0 = k
    · subst h0
      simp [mapGet, mapKeys]
    · have : ¬ k = k0 := fun h => h0 h.symm
      simp only [mapGet, h0, if_false, ih]
      simp [mapKeys, this]

/-- In a map without repeated keys, membership of an entry is lookup. -/
theorem mem_iff_mapGet {α : Type} (m : List (String × α)) (h : (mapKeys m).Nodup)
    (k : String) (v : α) : (k, v) ∈ m ↔ mapGet m k = some v := by
  induction m with
  | nil => simp [mapGet]
  | cons e rest ih =>
    obtain ⟨k0, v0⟩ := e
    have hn : k0 ∉ mapKeys rest ∧ (mapKeys rest).Nodup := by
      simpa [mapKeys] using h
    by_cases h0 : k0 = k
    · subst h0
      simp only [mapGet, if_true, List.mem_cons, Prod.mk.injEq, true_and, Option.some.injEq]
      constructor
      · rintro (h1 | h1)
        · exact h1.symm
        · exfalso
          apply hn.1
          simp only [mapKeys, List.mem_map]
          exact ⟨(k0, v), h1, rfl⟩
      · intro h1
        exact Or.inl h1.symm
    · have : ¬ k = k0 := fun h => h0 h.symm
      simp only [mapGet, h0, if_false, List.mem_cons, Prod.mk.injEq, this, false_and, false_or]
      exact ih hn.2

/-- Repeated assignment, the common shape of the loops over a map. -/
theorem foldl_mapSet_nodup {α β : Type} (f : β → String × α) (l : List β)
    (m : List (String × α)) (h : (mapKeys m).Nodup) :
    (mapKeys (l.foldl (fun m x => mapSet m (f x).1 (f x).2) m)).Nodup := by
  induction l generalizing m with
  | nil => exact h
  | cons x xs ih => exact ih _ (mapSet_nodup m _ _ h)

theorem foldl_mapSet_mem {α β : Type} (f : β → String × α) (l : List β)
    (m : List (String × α)) (e : String × α)
    (h : e ∈ l.foldl (fun m x => mapSet m (f x).1 (f x).2) m) :
    e ∈ m ∨ ∃ x ∈ l, e = f x := by
  induction l generalizing m with
  | nil => exact Or.inl h
  | cons x xs ih =>
    rcases ih _ h with h1 | ⟨y, hy, h1⟩
    · rcases mem_mapSet _ _ _ _ h1 with h2 | h2
      · exact Or.inr ⟨x, List.mem_cons_self _ _, h2⟩
      · exact Or.inl h2
    · exact Or.inr ⟨y, List.mem_cons_of_mem _ hy, h1⟩

/-- A key no iteration assigns keeps its lookup. -/
theorem foldl_mapSet_get_of_not_mem {α β : Type} (f : β → String × α) (l : List β)
    (m : List (String × α)) (k : String) (h : ∀ x ∈ l, (f x).1 ≠ k) :
    mapGet (l.foldl (fun m x => mapSet m (f x).1 (f x).2) m) k = mapGet m k := by
  induction l generalizing m with
  | nil => rfl
  | cons x xs ih =>
    simp only [List.foldl_cons]
    rw [ih _ (fun y hy => h y (List.mem_cons_of_mem _ hy)), mapGet_mapSet]
    simp [h x (List.mem_cons_self _ _)]

/-- A key assigned by some iteration, and always to the same value, ends with
that value. -/
theorem foldl_mapSet_get_of_mem {α β : Type} (f : β → String × α) (l : List β)
    (m : List (String × α)) (k : String) (v : α)
    (hf : ∀ x ∈ l, (f x).1 = k → (f x).2 = v)
    (h : mapGet m k = some v ∨ ∃ x ∈ l, (f x).1 = k) :
    mapGet (l.foldl (fun m x => mapSet m (f x).1 (f x).2) m) k = some v := by
  induction l generalizing m with
  | nil =>
    rcases h with h | ⟨x, hx, _⟩
    · exact h
    · cases hx
  | cons x xs ih =>
    simp only [List.foldl_cons]
    apply ih _ (fun y hy => hf y (List.mem_cons_of_mem _ hy))
    by_cases hk : (f x).1 = k
    · left
      rw [mapGet_mapSet]
      simp [hk, hf x (List.mem_cons_self _ _) hk]
    · rcases h with h | ⟨y, hy, h1⟩
      · left
        rw [mapGet_mapSet]
        simp [hk, h]
      · rcases List.mem_cons.1 hy with rfl | hy
        · exact absurd h1 hk
        · exact Or.inr ⟨y, hy, h1⟩

theorem string_append_left_cancel (p a b : String) (h : p ++ a = p ++ b) : a = b := by
  apply String.ext
  have := congrArg String.data h
  simpa [String.data_append] using this

/-! ## Lemmas: key template reconciler -/

theorem keyIDToValue_keyed (L alg : String) (keyConfigs : List Value)
    (regionKeys : List (String × String)) :
    KeyedByID L (keyIDToValue L alg keyConfigs regionKeys) := by
  constructor
  · exact foldl_mapSet_nodup (fun rk : String × String => (L ++ rk.2, kmsValue L alg rk.2))
      regionKeys _
      (foldl_mapSet_nodup (fun v : Value => (L ++ v.KeyID, v)) keyConfigs [] List.nodup_nil)
  · intro e he
    rcases foldl_mapSet_mem (fun rk : String × String => (L ++ rk.2, kmsValue L alg rk.2))
      regionKeys _ e he with h | ⟨x, _, h⟩
    · rcases foldl_mapSet_mem (fun v : Value => (L ++ v.KeyID, v)) keyConfigs [] e h with
        h1 | ⟨x, _, h1⟩
      · cases h1
      · rw [h1]
    · rw [h]
      rfl

theorem keyed_mem_values (L : String) (m : List (String × Value)) (h : KeyedByID L m)
    (v : Value) : v ∈ mapValues m ↔ mapGet m (L ++ v.KeyID) = some v := by
  rw [← mem_iff_mapGet m h.1]
  constructor
  · intro hv
    simp only [mapValues, List.mem_map] at hv
    obtain ⟨e, he, rfl⟩ := hv
    have := h.2 e he
    rw [← this]
    exact he
  · intro hv
    simp only [mapValues, List.mem_map]
    exact ⟨_, hv, rfl⟩

theorem keyed_values_nodup (L : String) (m : List (String × Value)) (h : KeyedByID L m) :
    (mapValues m).Nodup := by
  have hk : mapKeys m = (mapValues m).map (fun v => L ++ v.KeyID) := by
    simp only [mapKeys, mapValues, List.map_map]
    apply List.map_congr_left
    intro e he
    exact h.2 e he
  have := h.1
  rw [hk] at this
  exact List.Nodup.of_map _ this

/-- Lookup of a discovered key after reconciliation. -/
theorem keyIDToValue_get_discovered (L alg : String) (keyConfigs : List Value)
    (regionKeys : List (String × String)) (k : String) (hk : k ∈ mapValues regionKeys) :
    mapGet (keyIDToValue L alg keyConfigs regionKeys) (L ++ k) = some (kmsValue L alg k) := by
  apply foldl_mapSet_get_of_mem (fun rk : String × String => (L ++ rk.2, kmsValue L alg rk.2))
  · intro x _ hx
    have : x.2 = k := string_append_left_cancel L _ _ hx
    simp only [this]
  · right
    simp only [mapValues, List.mem_map] at hk
    obtain ⟨e, he, rfl⟩ := hk
    exact ⟨e, he, rfl⟩

/-- Lookup of any other key after reconciliation is the lookup after seeding. -/
theorem keyIDToValue_get_other (L alg : String) (keyConfigs : List Value)
    (regionKeys : List (String × String)) (κ : String)
    (hk : ∀ p ∈ regionKeys, L ++ p.2 ≠ κ) :
    mapGet (keyIDToValue L alg keyConfigs regionKeys) κ =
      mapGet (seedKeyIDToValue L keyConfigs) κ :=
  foldl_mapSet_get_of_not_mem (fun rk : String × String => (L ++ rk.2, kmsValue L alg rk.2))
    regionKeys _ κ hk

theorem list_eq_singleton {α : Type} (l : List α) (a : α) (hn : l.Nodup)
    (hm : ∀ x, x ∈ l ↔ x = a) : l = [a] := by
  have : l.Perm [a] := by
    rw [List.perm_ext_iff_of_nodup hn (List.nodup_singleton a)]
    intro x
    rw [hm x, List.mem_singleton]
  exact List.perm_singleton.1 this

/-- Two maps of the reconciler's shape with the same lookups hold the same values. -/
theorem keyed_values_perm (L : String) (m₁ m₂ : List (String × Value))
    (h₁ : KeyedByID L m₁) (h₂ : KeyedByID L m₂) (h : ∀ κ, mapGet m₂ κ = mapGet m₁ κ) :
    (mapValues m₂).Perm (mapValues m₁) := by
  rw [List.perm_ext_iff_of_nodup (keyed_values_nodup L m₂ h₂) (keyed_values_nodup L m₁ h₁)]
  intro v
  rw [keyed_mem_values L m₂ h₂, keyed_mem_values L m₁ h₁, h]

/-! ## Lemmas: region prober -/

theorem lenIsZero_empty : lenIsZero "" = true := rfl

theorem collectRegion_missing (R : Remote) (stackName keyAlias : String) (st : RegionInfo)
    (region : String) :
    (collectRegion R stackName keyAlias st region).regionsMissing =
      st.regionsMissing ++ (if aliasQueryEmpty R keyAlias region then [region] else []) := by
  unfold collectRegion aliasQueryEmpty
  rcases hk : (checkKmsKeyExists R keyAlias region).1 with ⟨arn, e⟩
  cases e with
  | some err => simp [hk]
  | none =>
    by_cases hz : lenIsZero arn = true
    · have := (lenIsZero_iff _).1 hz
      subst this
      simp [hk, lenIsZero_empty]
    · have hne : arn ≠ "" := fun h => hz ((lenIsZero_iff _).2 h)
      simp [hk, hz, hne]

theorem collectRegion_calls (R : Remote) (stackName keyAlias : String) (st : RegionInfo)
    (region : String) :
    (collectRegion R stackName keyAlias st region).calls =
      st.calls ++ ((checkCloudFormationStackExists R stackName region).2 ++
        (checkKmsKeyExists R keyAlias region).2) := by
  unfold collectRegion
  simp

theorem collectRegion_keys (R : Remote) (stackName keyAlias : String) (st : RegionInfo)
    (region : String) :
    (collectRegion R stackName keyAlias st region).regionKeys =
      if aliasFound R keyAlias region then
        mapSet st.regionKeys region (checkKmsKeyExists R keyAlias region).1.1
      else st.regionKeys := by
  unfold collectRegion aliasFound
  rcases hk : (checkKmsKeyExists R keyAlias region).1 with ⟨arn, e⟩
  cases e with
  | some err => simp [hk]
  | none =>
    by_cases hz : lenIsZero arn = true
    · simp [hk, hz]
    · simp [hk, hz]

theorem mem_keys_appendError (es : List (String × List String)) (region err x : String) :
    x ∈ mapKeys (appendError es region err) ↔ x = region ∨ x ∈ mapKeys es := by
  unfold appendError
  exact mapKeys_mapSet_mem _ _ _ _

theorem collectRegion_errors (R : Remote) (stackName keyAlias : String) (st : RegionInfo)
    (region x : String) :
    x ∈ mapKeys (collectRegion R stackName keyAlias st region).regionErrors ↔
      x ∈ mapKeys st.regionErrors ∨
        (x = region ∧ regionHasError R stackName keyAlias region = true) := by
  unfold collectRegion regionHasError
  rcases hk : (checkKmsKeyExists R keyAlias region).1 with ⟨arn, e⟩
  rcases hs : (checkCloudFormationStackExists R stackName region).1 with ⟨flag, se⟩
  cases se with
  | some serr =>
    cases e with
    | some err =>
      simp only [hk, hs]
      simp [mem_keys_appendError]
      tauto
    | none =>
      by_cases hz : lenIsZero arn = true
      · simp only [hk, hs, hz]
        simp [mem_keys_appendError]
        tauto
      · simp only [hk, hs, hz]
        simp [mem_keys_appendError]
        tauto
  | none =>
    cases e with
    | some err =>
      cases flag
      · simp only [hk, hs]
        simp [mem_keys_appendError]
        tauto
      · simp only [hk, hs]
        simp [mem_keys_appendError]
        tauto
    | none =>
      by_cases hz : lenIsZero arn = true
      · cases flag
        · simp only [hk, hs, hz]
          simp
        · simp only [hk, hs, hz]
          simp [mem_keys_appendError]
          tauto
      · cases flag
        · simp only [hk, hs, hz]
          simp
        · simp only [hk, hs, hz]
          simp

theorem aggregateError_eq_none (es : List (String × List String)) :
    aggregateError es = none ↔ es = [] := by
  have aux : ∀ (l : List (String × List String)) (x : String),
      l.foldl (fun _ _ => some "Please manually resolve the issues and try again.")
        (some x) ≠ none := by
    intro l
    induction l with
    | nil => intro x; simp
    | cons e rest ih => intro x; exact ih _
  cases es with
  | nil => simp [aggregateError]
  | cons e rest =>
    simp only [aggregateError, List.foldl_cons]
    constructor
    · intro h
      exact absurd h (aux rest _)
    · intro h
      cases h

/-- The loop over the regions, from any starting state. -/
theorem collectRegions_fold (R : Remote) (stackName keyAlias : String) (regions : List String)
    (st : RegionInfo) :
    (regions.foldl (collectRegion R stackName keyAlias) st).regionsMissing =
      st.regionsMissing ++ regions.filter (aliasQueryEmpty R keyAlias) ∧
    (regions.foldl (collectRegion R stackName keyAlias) st).calls =
      st.calls ++ (regions.map (fun r => (checkCloudFormationStackExists R stackName r).2 ++
        (checkKmsKeyExists R keyAlias r).2)).flatten ∧
    (∀ x, x ∈ mapKeys (regions.foldl (collectRegion R stackName keyAlias) st).regionErrors ↔
      x ∈ mapKeys st.regionErrors ∨
        (x ∈ regions ∧ regionHasError R stackName keyAlias x = true)) ∧
    (∀ x, mapGet (regions.foldl (collectRegion R stackName keyAlias) st).regionKeys x =
      if x ∈ regions ∧ aliasFound R keyAlias x = true then
        some (checkKmsKeyExists R keyAlias x).1.1
      else mapGet st.regionKeys x) := by
  induction regions generalizing st with
  | nil => simp
  | cons r rs ih =>
    simp only [List.foldl_cons]
    obtain ⟨h1, h2, h3, h4⟩ := ih (collectRegion R stackName keyAlias st r)
    refine ⟨?_, ?_, ?_, ?_⟩
    · rw [h1, collectRegion_missing, List.filter_cons]
      by_cases hq : aliasQueryEmpty R keyAlias r = true
      · simp [hq]
      · simp [hq]
    · rw [h2, collectRegion_calls]
      simp [List.append_assoc]
    · intro x
      rw [h3, collectRegion_errors]
      simp only [List.mem_cons]
      constructor
      · rintro ((h | ⟨rfl, h⟩) | ⟨h, h'⟩)
        · exact Or.inl h
        · exact Or.inr ⟨Or.inl rfl, h⟩
        · exact Or.inr ⟨Or.inr h, h'⟩
      · rintro (h | ⟨rfl | h, h'⟩)
        · exact Or.inl (Or.inl h)
        · exact Or.inl (Or.inr ⟨rfl, h'⟩)
        · exact Or.inr ⟨h, h'⟩
    · intro x
      rw [h4, collectRegion_keys]
      by_cases hx : x ∈ rs ∧ aliasFound R keyAlias x = true
      · have : x ∈ r :: rs ∧ aliasFound R keyAlias x = true :=
          ⟨List.mem_cons_of_mem _ hx.1, hx.2⟩
        simp [hx, this]
      · rw [if_neg hx]
        by_cases hr : x = r
        · subst hr
          by_cases hf : aliasFound R keyAlias x = true
          · simp [hf, mapGet_mapSet]
          · simp [hf]
        · have hr' : ¬ r = x := fun h => hr h.symm
          have hcond : (x ∈ r :: rs ∧ aliasFound R keyAlias x = true) ↔ False := by
            simp only [List.mem_cons, hr, false_or]
            exact iff_false_intro hx
          by_cases hf : aliasFound R keyAlias r = true
          · simp only [hf, if_true, mapGet_mapSet, hr', if_false]
            rw [if_neg (fun h => hcond.1 h)]
          · simp only [hf]
            rw [if_neg (fun h => hcond.1 h)]
            simp

theorem fp_calls_probe (R : Remote) (keyAlias region : String) (page : List AliasRecord)
    (st : AliasScan) (h : ∀ c ∈ st.calls, c.isProbe = true) :
    ∀ c ∈ (fp R keyAlias region page st).2.calls, c.isProbe = true := by
  induction page generalizing st with
  | nil => simpa [fp] using h
  | cons a rest ih =>
    have hext : ∀ c ∈ st.calls ++ [Call.DescribeKey region a.TargetKeyId],
        c.isProbe = true := by
      intro c hc
      rcases List.mem_append.1 hc with hc | hc
      · exact h c hc
      · rw [List.mem_singleton.1 hc]
        rfl
    unfold fp
    by_cases hn : a.AliasName ≠ keyAlias
    · rw [if_pos hn]
      exact ih st h
    · rw [if_neg hn]
      cases hd : R.DescribeKey region a.TargetKeyId with
      | error err => simpa using hext
      | ok enabled =>
        cases enabled
        · simpa using hext
        · simp only [Bool.not_true, Bool.false_eq_true, if_false]
          exact ih _ hext

theorem pageLoop_calls_probe (R : Remote) (keyAlias region : String)
    (pages : List (List AliasRecord)) (st : AliasScan)
    (h : ∀ c ∈ st.calls, c.isProbe = true) :
    ∀ c ∈ (pageLoop R keyAlias region pages st).2.calls, c.isProbe = true := by
  induction pages generalizing st with
  | nil => simpa [pageLoop] using h
  | cons page rest ih =>
    unfold pageLoop
    have hfp := fp_calls_probe R keyAlias region page st h
    rcases hr : fp R keyAlias region page st with ⟨go, st'⟩
    rw [hr] at hfp
    cases go
    · simpa using hfp
    · exact ih st' hfp

theorem checkKmsKeyExists_calls_probe (R : Remote) (keyAlias region : String) :
    ∀ c ∈ (checkKmsKeyExists R keyAlias region).2, c.isProbe = true := by
  have h := pageLoop_calls_probe R keyAlias region (R.ListAliasesPages region).1
    { foundAliasArn := "", callbackErr := none, calls := [Call.ListAliasesPages region] }
    (by
      intro c hc
      rw [List.mem_singleton.1 hc]
      rfl)
  unfold checkKmsKeyExists
  simp only
  split <;> exact h

theorem checkCloudFormationStackExists_calls (R : Remote) (stackName region : String) :
    (checkCloudFormationStackExists R stackName region).2 =
      [Call.DescribeStacks region stackName] := by
  unfold checkCloudFormationStackExists
  cases R.DescribeStacks region stackName with
  | ok found => rfl
  | awsErr code message =>
    simp only
    split <;> rfl
  | otherErr text => rfl

/-- The prober sends read-only requests only. -/
theorem collectRegionInfo_calls_probe (R : Remote) (stackName keyAlias : String)
    (regions : List String) :
    ∀ c ∈ (collectRegionInfo R stackName keyAlias regions).2, c.isProbe = true := by
  intro c hc
  have h := (collectRegions_fold R stackName keyAlias regions
    { regionErrors := [], regionKeys := [], regionsMissing := [], calls := [] }).2.1
  simp only [collectRegionInfo, collectRegions] at hc
  rw [h] at hc
  simp only [List.nil_append, List.mem_flatten, List.mem_map] at hc
  obtain ⟨l, ⟨r, _, rfl⟩, hc⟩ := hc
  rcases List.mem_append.1 hc with hc | hc
  · rw [checkCloudFormationStackExists_calls] at hc
    rw [List.mem_singleton.1 hc]
    rfl
  · exact checkKmsKeyExists_calls_probe R keyAlias r c hc

theorem fp_not_listed (R : Remote) (keyAlias region : String) (page : List AliasRecord)
    (st : AliasScan) (h : page.any (fun a => a.AliasName = keyAlias) = false) :
    fp R keyAlias region page st = (true, st) := by
  induction page with
  | nil => rfl
  | cons a rest ih =>
    simp only [List.any_cons, Bool.or_eq_false_iff, decide_eq_false_iff_not] at h
    unfold fp
    rw [if_pos h.1]
    exact ih h.2

theorem pageLoop_not_listed (R : Remote) (keyAlias region : String)
    (pages : List (List AliasRecord)) (st : AliasScan)
    (h : pages.any (fun page => page.any (fun a => a.AliasName = keyAlias)) = false) :
    pageLoop R keyAlias region pages st = (true, st) := by
  induction pages with
  | nil => rfl
  | cons page rest ih =>
    simp only [List.any_cons, Bool.or_eq_false_iff] at h
    unfold pageLoop
    rw [fp_not_listed R keyAlias region page st h.1]
    exact ih h.2

/-- A region that lists no alias of the name, and whose listing does not fail,
has an empty alias query. -/
theorem aliasQueryEmpty_of_not_listed (R : Remote) (keyAlias region : String)
    (h : aliasListed R keyAlias region = false) (herr : (R.ListAliasesPages region).2 = none) :
    aliasQueryEmpty R keyAlias region = true := by
  unfold aliasQueryEmpty checkKmsKeyExists
  unfold aliasListed at h
  simp only [pageLoop_not_listed R keyAlias region _ _ h, herr]
  simp

/-! ## Theorems: ARN canonicaliser -/

/-- C8: for every account identifier and comma-delimited input, the list
returned by `cleanArnList` has no repeated entry, does not contain the empty
string, and is sorted in ascending lexicographic order. -/
theorem cleanArnList_canonical (a s : String) :
    (cleanArnList a s).Nodup ∧ "" ∉ cleanArnList a s ∧
      List.Sorted (fun x y : String => x ≤ y) (cleanArnList a s) := by
  refine ⟨?_, ?_, ?_⟩
  · unfold cleanArnList stringsetToList
    rw [(sort_Strings_perm _).nodup_iff]
    exact (cleaned_fold a _ []).1 List.nodup_nil
  · intro h
    exact ((mem_cleanArnList a s "").1 h).1 rfl
  · unfold cleanArnList stringsetToList
    exact sort_Strings_sorted _

/-- C9: canonicalisation is idempotent: for every account identifier `a` and
token `t`, `cleanArn a (cleanArn a t) = cleanArn a t`. -/
theorem cleanArn_idempotent (a t : String) :
    cleanArn a (cleanArn a t) = cleanArn a t := by
  rcases cleanArn_cases a t with ⟨_, h⟩ | ⟨h0, h1, h⟩ | ⟨h0, _, mid, h⟩
  · rw [h]
    have h1 : strings_TrimSpace "" = "" := by decide
    have h2 : lenIsZero "" = true := by decide
    simp [cleanArn, h1, h2]
  · rw [h]
    have hz : lenIsZero (strings_TrimSpace t) = false := by
      cases hb : lenIsZero (strings_TrimSpace t) with
      | false => rfl
      | true => exact absurd ((lenIsZero_iff _).1 hb) h0
    simp [cleanArn, TrimSpace_idem, hz, h1]
  · rw [h]
    have hne : (strings_TrimSpace t).data ≠ [] := by
      intro hd
      exact h0 (String.ext hd)
    have htrim := TrimSpace_arn_append mid t hne
    have hpre : strings_HasPrefix ("arn:" ++ mid ++ strings_TrimSpace t) "arn:" = true := by
      rw [String.append_assoc]
      exact HasPrefix_arn_append _
    have hz : lenIsZero ("arn:" ++ mid ++ strings_TrimSpace t) = false := by
      cases hb : lenIsZero ("arn:" ++ mid ++ strings_TrimSpace t) with
      | false => rfl
      | true =>
        have := (lenIsZero_iff _).1 hb
        have hd := congrArg String.data this
        rw [String.data_append] at hd
        have : (strings_TrimSpace t).data = [] := by
          have h3 := List.append_eq_nil.1 hd
          exact h3.2
        exact absurd this hne
    simp [cleanArn, htrim, hpre, hz]

/-- C10: with `t` the trimmed token: a blank token gives the empty string; a
non-empty `t` is returned as is when it starts with `arn:`, gets
`arn:aws:iam::<account>:` in front when it starts with `user/` or `role/`, and
`arn:aws:iam::<account>:user/` in front otherwise; and the list example of the
specification evaluates as stated. -/
theorem cleanArn_spec (a tok : String) :
    (strings_TrimSpace tok = "" → cleanArn a tok = "") ∧
    (strings_TrimSpace tok ≠ "" → strings_HasPrefix (strings_TrimSpace tok) "arn:" = true →
      cleanArn a tok = strings_TrimSpace tok) ∧
    (strings_TrimSpace tok ≠ "" →
      (strings_HasPrefix (strings_TrimSpace tok) "user/" = true ∨
        strings_HasPrefix (strings_TrimSpace tok) "role/" = true) →
      cleanArn a tok = "arn:aws:iam::" ++ a ++ ":" ++ strings_TrimSpace tok) ∧
    (strings_TrimSpace tok ≠ "" → strings_HasPrefix (strings_TrimSpace tok) "arn:" = false →
      strings_HasPrefix (strings_TrimSpace tok) "user/" = false →
      strings_HasPrefix (strings_TrimSpace tok) "role/" = false →
      cleanArn a tok = "arn:aws:iam::" ++ a ++ ":user/" ++ strings_TrimSpace tok) ∧
    cleanArnList "123" "jeff,role/webserver,arn:aws:iam::123:user/x" =
      ["arn:aws:iam::123:role/webserver", "arn:aws:iam::123:user/jeff",
        "arn:aws:iam::123:user/x"] := by
  have hz : strings_TrimSpace tok ≠ "" → lenIsZero (strings_TrimSpace tok) = false := by
    intro h0
    cases hb : lenIsZero (strings_TrimSpace tok) with
    | false => rfl
    | true => exact absurd ((lenIsZero_iff _).1 hb) h0
  have hexcl : ∀ p : String, p = "user/" ∨ p = "role/" →
      strings_HasPrefix (strings_TrimSpace tok) p = true →
      strings_HasPrefix (strings_TrimSpace tok) "arn:" = false := by
    intro p hp h
    cases hb : strings_HasPrefix (strings_TrimSpace tok) "arn:" with
    | false => rfl
    | true =>
      exfalso
      unfold strings_HasPrefix at h hb
      rw [List.isPrefixOf_iff_prefix] at h hb
      obtain ⟨r1, hr1⟩ := h
      obtain ⟨r2, hr2⟩ := hb
      rw [← hr1] at hr2
      rcases hp with rfl | rfl
      · have h3 := congrArg List.head? hr2
        simp at h3
      · have h3 := congrArg List.head? hr2
        simp at h3
  refine ⟨?_, ?_, ?_, ?_, by decide⟩
  · intro h0
    simp [cleanArn, (lenIsZero_iff _).2 h0]
  · intro h0 h1
    simp [cleanArn, hz h0, h1]
  · intro h0 h1
    have harn : strings_HasPrefix (strings_TrimSpace tok) "arn:" = false := by
      rcases h1 with h1 | h1
      · exact hexcl _ (Or.inl rfl) h1
      · exact hexcl _ (Or.inr rfl) h1
    have hor : (strings_HasPrefix (strings_TrimSpace tok) "user/" ||
        strings_HasPrefix (strings_TrimSpace tok) "role/") = true := by
      rcases h1 with h1 | h1
      · simp [h1]
      · simp [h1]
    simp only [cleanArn, hz h0, harn, hor]
    simp
  · intro h0 h1 h2 h3
    simp only [cleanArn, hz h0, h1, h2, h3]
    simp

/-- C10, instantiated at account `123` and token `" jeff "`. -/
theorem cleanArn_spec_witness :
    strings_TrimSpace " jeff " ≠ "" ∧
    strings_HasPrefix (strings_TrimSpace " jeff ") "arn:" = false ∧
    strings_HasPrefix (strings_TrimSpace " jeff ") "user/" = false ∧
    strings_HasPrefix (strings_TrimSpace " jeff ") "role/" = false ∧
    cleanArn "123" " jeff " = "arn:aws:iam::" ++ "123" ++ ":user/" ++ strings_TrimSpace " jeff " :=
  ⟨by decide, by decide, by decide, by decide,
    (cleanArn_spec "123" " jeff ").2.2.2.1 (by decide) (by decide) (by decide) (by decide)⟩

/-! ## Theorems: key template reconciler -/

/-- C1 (the code departs from it): an existing entry of another key manager is
not kept when its `KeyID` is also that of a later existing entry or of a
discovered key, because every entry is stored under `KmsLabel + KeyID`. With
label `aws-kms`: of the existing entries `key1/testing` and `key1/pgp` only
the second is written back beside the unrelated key discovered in
`us-west-1`; and an existing `testing` entry whose `KeyID` is the discovered
alias is replaced by the KMS entry. The written template is a permutation of
the list shown, so the dropped entry is in none. -/
theorem reconcile_drops_other_manager_entry :
    updatedTemplate "aws-kms" "aesgcm256"
        [{ KeyID := "key1", KeyManager := "testing", Algorithm := "none", rest := "" },
         { KeyID := "key1", KeyManager := "pgp", Algorithm := "none", rest := "" }]
        [("us-west-1", "arn:aws:kms:us-west-1:123:alias/biscuit-default")] =
      [{ KeyID := "key1", KeyManager := "pgp", Algorithm := "none", rest := "" },
       { KeyID := "arn:aws:kms:us-west-1:123:alias/biscuit-default", KeyManager := "aws-kms",
         Algorithm := "aesgcm256", rest := "" }] ∧
    updatedTemplate "aws-kms" "aesgcm256"
        [{ KeyID := "arn:aws:kms:us-west-1:123:alias/biscuit-default", KeyManager := "testing",
           Algorithm := "none", rest := "" }]
        [("us-west-1", "arn:aws:kms:us-west-1:123:alias/biscuit-default")] =
      [{ KeyID := "arn:aws:kms:us-west-1:123:alias/biscuit-default", KeyManager := "aws-kms",
         Algorithm := "aesgcm256", rest := "" }] := by
  decide

/-- C2: in every template written after reconciliation, each discovered key
identifier has exactly one entry, and that entry carries the KMS label and
the requested algorithm, whatever the existing template held. -/
theorem reconcile_discovered_unique (L alg : String) (keyConfigs : List Value)
    (regionKeys : List (String × String)) (out : List Value)
    (hout : isWrittenTemplate L alg keyConfigs regionKeys out = true)
    (k : String) (hk : k ∈ mapValues regionKeys) :
    ∃ v : Value, out.filter (fun x => decide (x.KeyID = k)) = [v] ∧
      v.KeyID = k ∧ v.KeyManager = L ∧ v.Algorithm = alg := by
  have hp : out.Perm (updatedTemplate L alg keyConfigs regionKeys) := of_decide_eq_true hout
  have hkeyed := keyIDToValue_keyed L alg keyConfigs regionKeys
  have hget := keyIDToValue_get_discovered L alg keyConfigs regionKeys k hk
  refine ⟨kmsValue L alg k, ?_, rfl, rfl, rfl⟩
  apply list_eq_singleton
  · exact (hp.nodup_iff.2 (keyed_values_nodup L _ hkeyed)).filter _
  · intro x
    rw [List.mem_filter, hp.mem_iff]
    unfold updatedTemplate
    rw [keyed_mem_values L _ hkeyed]
    constructor
    · rintro ⟨h1, h2⟩
      have h2 : x.KeyID = k := of_decide_eq_true h2
      rw [h2, hget] at h1
      exact (Option.some.inj h1).symm
    · rintro rfl
      exact ⟨hget, decide_eq_true rfl⟩

/-- C2, instantiated: an existing entry of the discovered key with another
algorithm is replaced, not duplicated. -/
theorem reconcile_discovered_unique_witness :
    isWrittenTemplate "aws-kms" "new"
      [{ KeyID := "k1", KeyManager := "aws-kms", Algorithm := "old", rest := "" },
       { KeyID := "k2", KeyManager := "m", Algorithm := "a", rest := "" }]
      [("r1", "k1")]
      [{ KeyID := "k2", KeyManager := "m", Algorithm := "a", rest := "" },
       { KeyID := "k1", KeyManager := "aws-kms", Algorithm := "new", rest := "" }] = true ∧
    "k1" ∈ mapValues [("r1", "k1")] ∧
    ∃ v : Value,
      ([{ KeyID := "k2", KeyManager := "m", Algorithm := "a", rest := "" },
        { KeyID := "k1", KeyManager := "aws-kms", Algorithm := "new", rest := "" }] :
          List Value).filter (fun x => decide (x.KeyID = "k1")) = [v] ∧
      v.KeyID = "k1" ∧ v.KeyManager = "aws-kms" ∧ v.Algorithm = "new" :=
  ⟨by decide, by decide,
    reconcile_discovered_unique "aws-kms" "new"
      [{ KeyID := "k1", KeyManager := "aws-kms", Algorithm := "old", rest := "" },
       { KeyID := "k2", KeyManager := "m", Algorithm := "a", rest := "" }]
      [("r1", "k1")]
      [{ KeyID := "k2", KeyManager := "m", Algorithm := "a", rest := "" },
       { KeyID := "k1", KeyManager := "aws-kms", Algorithm := "new", rest := "" }]
      (by decide) "k1" (by decide)⟩

/-- C3: reconciliation is idempotent: reconciling any template written by a
first reconciliation again, with the same region-to-key map (iterated in any
order) and the same algorithm, writes the same entries. -/
theorem reconcile_idempotent (L alg : String) (keyConfigs : List Value)
    (regionKeys regionKeys' : List (String × String)) (out₁ out₂ : List Value)
    (h₁ : isWrittenTemplate L alg keyConfigs regionKeys out₁ = true)
    (hrk : regionKeys'.Perm regionKeys)
    (h₂ : isWrittenTemplate L alg out₁ regionKeys' out₂ = true) :
    out₂.Perm out₁ := by
  have hp₁ : out₁.Perm (updatedTemplate L alg keyConfigs regionKeys) := of_decide_eq_true h₁
  have hp₂ : out₂.Perm (updatedTemplate L alg out₁ regionKeys') := of_decide_eq_true h₂
  have hk₁ := keyIDToValue_keyed L alg keyConfigs regionKeys
  have hk₂ := keyIDToValue_keyed L alg out₁ regionKeys'
  refine hp₂.trans (List.Perm.trans ?_ hp₁.symm)
  apply keyed_values_perm L _ _ hk₁ hk₂
  intro κ
  have hmem : ∀ x, x ∈ out₁ ↔
      mapGet (keyIDToValue L alg keyConfigs regionKeys) (L ++ x.KeyID) = some x := by
    intro x
    rw [hp₁.mem_iff]
    exact keyed_mem_values L _ hk₁ x
  by_cases hA : ∃ p ∈ regionKeys', L ++ p.2 = κ
  · obtain ⟨p, hp, rfl⟩ := hA
    have hin' : p.2 ∈ mapValues regionKeys' := by
      simp only [mapValues, List.mem_map]
      exact ⟨p, hp, rfl⟩
    have hin : p.2 ∈ mapValues regionKeys := by
      simp only [mapValues, List.mem_map]
      exact ⟨p, hrk.mem_iff.1 hp, rfl⟩
    rw [keyIDToValue_get_discovered L alg out₁ regionKeys' p.2 hin',
      keyIDToValue_get_discovered L alg keyConfigs regionKeys p.2 hin]
  · have hB : ∀ p ∈ regionKeys', L ++ p.2 ≠ κ := fun p hp h => hA ⟨p, hp, h⟩
    rw [keyIDToValue_get_other L alg out₁ regionKeys' κ hB]
    cases hg : mapGet (keyIDToValue L alg keyConfigs regionKeys) κ with
    | none =>
      have : ∀ x ∈ out₁, L ++ x.KeyID ≠ κ := by
        intro x hx hκ
        have := (hmem x).1 hx
        rw [hκ, hg] at this
        cases this
      exact foldl_mapSet_get_of_not_mem (fun v : Value => (L ++ v.KeyID, v)) out₁ [] κ this
    | some v =>
      have hκ : κ = L ++ v.KeyID := hk₁.2 (κ, v) ((mem_iff_mapGet _ hk₁.1 κ v).2 hg)
      have hv : v ∈ out₁ := by
        rw [hmem, ← hκ]
        exact hg
      apply foldl_mapSet_get_of_mem (fun v : Value => (L ++ v.KeyID, v)) out₁ [] κ v
      · intro x hx hxκ
        have := (hmem x).1 hx
        rw [show L ++ x.KeyID = κ from hxκ, hg] at this
        exact (Option.some.inj this).symm
      · exact Or.inr ⟨v, hv, hκ.symm⟩

/-- C3, instantiated: a second run over the output of a first run, with the
two regions of the map visited in the other order. -/
theorem reconcile_idempotent_witness :
    isWrittenTemplate "aws-kms" "new"
      [{ KeyID := "k1", KeyManager := "aws-kms", Algorithm := "old", rest := "" },
       { KeyID := "k2", KeyManager := "m", Algorithm := "a", rest := "" }]
      [("r1", "k1"), ("r3", "k3")]
      [{ KeyID := "k2", KeyManager := "m", Algorithm := "a", rest := "" },
       { KeyID := "k3", KeyManager := "aws-kms", Algorithm := "new", rest := "" },
       { KeyID := "k1", KeyManager := "aws-kms", Algorithm := "new", rest := "" }] = true ∧
    isWrittenTemplate "aws-kms" "new"
      [{ KeyID := "k2", KeyManager := "m", Algorithm := "a", rest := "" },
       { KeyID := "k3", KeyManager := "aws-kms", Algorithm := "new", rest := "" },
       { KeyID := "k1", KeyManager := "aws-kms", Algorithm := "new", rest := "" }]
      [("r3", "k3"), ("r1", "k1")]
      [{ KeyID := "k1", KeyManager := "aws-kms", Algorithm := "new", rest := "" },
       { KeyID := "k2", KeyManager := "m", Algorithm := "a", rest := "" },
       { KeyID := "k3", KeyManager := "aws-kms", Algorithm := "new", rest := "" }] = true ∧
    ([{ KeyID := "k1", KeyManager := "aws-kms", Algorithm := "new", rest := "" },
      { KeyID := "k2", KeyManager := "m", Algorithm := "a", rest := "" },
      { KeyID := "k3", KeyManager := "aws-kms", Algorithm := "new", rest := "" }] :
        List Value).Perm
    [{ KeyID := "k2", KeyManager := "m", Algorithm := "a", rest := "" },
     { KeyID := "k3", KeyManager := "aws-kms", Algorithm := "new", rest := "" },
     { KeyID := "k1", KeyManager := "aws-kms", Algorithm := "new", rest := "" }] :=
  ⟨by decide, by decide,
    reconcile_idempotent "aws-kms" "new"
      [{ KeyID := "k1", KeyManager := "aws-kms", Algorithm := "old", rest := "" },
       { KeyID := "k2", KeyManager := "m", Algorithm := "a", rest := "" }]
      [("r1", "k1"), ("r3", "k3")] [("r3", "k3"), ("r1", "k1")]
      [{ KeyID := "k2", KeyManager := "m", Algorithm := "a", rest := "" },
       { KeyID := "k3", KeyManager := "aws-kms", Algorithm := "new", rest := "" },
       { KeyID := "k1", KeyManager := "aws-kms", Algorithm := "new", rest := "" }]
      [{ KeyID := "k1", KeyManager := "aws-kms", Algorithm := "new", rest := "" },
       { KeyID := "k2", KeyManager := "m", Algorithm := "a", rest := "" },
       { KeyID := "k3", KeyManager := "aws-kms", Algorithm := "new", rest := "" }]
      (by decide) (by decide) (by decide)⟩

/-! ## Theorems: region prober and policy gate -/

/-- C4: when probing ends without error, some target region has a key, some
target region has none, and `--create-missing-keys` is unset, then
`discoverOrCreateKeys` returns no map and an error, and sends nothing beyond
the prober's read-only requests: no get-caller-identity, no create-stack, no
create-alias, under every schedule of the goroutines. -/
theorem discoverOrCreateKeys_gate (R : Remote) (kmsAliasName cfStackName : String → String)
    (w : kmsInit) (sched : List Step)
    (hprobe : (collectRegionInfo R (cfStackName w.label) (kmsAliasName w.label)
      w.regions).1.2.2 = none)
    (hkey : ∃ r ∈ w.regions, aliasFound R (kmsAliasName w.label) r = true)
    (hmiss : ∃ r ∈ w.regions, aliasQueryEmpty R (kmsAliasName w.label) r = true)
    (hflag : w.createMissingKeys = false) :
    (discoverOrCreateKeys R kmsAliasName cfStackName w sched).1.1 = none ∧
    (discoverOrCreateKeys R kmsAliasName cfStackName w sched).1.2.isSome = true ∧
    (discoverOrCreateKeys R kmsAliasName cfStackName w sched).2 =
      (collectRegionInfo R (cfStackName w.label) (kmsAliasName w.label) w.regions).2 ∧
    ∀ c ∈ (discoverOrCreateKeys R kmsAliasName cfStackName w sched).2,
      c ≠ Call.GetCallerIdentity ∧ (∀ s, c ≠ Call.CreateStack s) ∧
        (∀ r a k, c ≠ Call.CreateAlias r a k) := by
  have hfold := collectRegions_fold R (cfStackName w.label) (kmsAliasName w.label) w.regions
    { regionErrors := [], regionKeys := [], regionsMissing := [], calls := [] }
  have hk : (collectRegionInfo R (cfStackName w.label) (kmsAliasName w.label)
      w.regions).1.1.length > 0 := by
    obtain ⟨r, hr, hf⟩ := hkey
    have h4 := hfold.2.2.2 r
    rw [if_pos ⟨hr, hf⟩] at h4
    simp only [collectRegionInfo, collectRegions]
    apply List.length_pos.2
    intro h0
    rw [h0] at h4
    simp [mapGet] at h4
  have hm : (collectRegionInfo R (cfStackName w.label) (kmsAliasName w.label)
      w.regions).1.2.1.length > 0 := by
    obtain ⟨r, hr, hf⟩ := hmiss
    simp only [collectRegionInfo, collectRegions]
    rw [hfold.1]
    apply List.length_pos.2
    intro h0
    have : r ∈ ([] : List String) ++ List.filter (aliasQueryEmpty R (kmsAliasName w.label))
        w.regions := by
      simp only [List.nil_append, List.mem_filter]
      exact ⟨hr, hf⟩
    rw [h0] at this
    cases this
  have hres : discoverOrCreateKeys R kmsAliasName cfStackName w sched =
      ((none, some (gateError w (collectRegionInfo R (cfStackName w.label)
        (kmsAliasName w.label) w.regions).1.1.length)),
        (collectRegionInfo R (cfStackName w.label) (kmsAliasName w.label) w.regions).2) := by
    unfold discoverOrCreateKeys
    simp only [hprobe]
    rw [if_pos]
    simp [hk, hm, hflag]
  rw [hres]
  refine ⟨rfl, rfl, rfl, ?_⟩
  intro c hc
  have hp := collectRegionInfo_calls_probe R _ _ _ c hc
  refine ⟨?_, ?_, ?_⟩
  · rintro rfl
    cases hp
  · rintro s rfl
    cases hp
  · rintro r a k rfl
    cases hp

/-- C4, instantiated: `us-east-1` has its key, `us-west-2` has none, and the
flag is unset. -/
theorem discoverOrCreateKeys_gate_witness :
    (collectRegionInfo sampleRemote "biscuit-default" "alias/biscuit-default"
      sampleInit.regions).1.2.2 = none ∧
    aliasFound sampleRemote "alias/biscuit-default" "us-east-1" = true ∧
    aliasQueryEmpty sampleRemote "alias/biscuit-default" "us-west-2" = true ∧
    sampleInit.createMissingKeys = false ∧
    (discoverOrCreateKeys sampleRemote (fun l => "alias/biscuit-" ++ l)
      (fun l => "biscuit-" ++ l) sampleInit
      [Step.assign "us-west-2", Step.check "us-west-2"]).1.1 = none ∧
    (discoverOrCreateKeys sampleRemote (fun l => "alias/biscuit-" ++ l)
      (fun l => "biscuit-" ++ l) sampleInit
      [Step.assign "us-west-2", Step.check "us-west-2"]).1.2.isSome = true ∧
    (discoverOrCreateKeys sampleRemote (fun l => "alias/biscuit-" ++ l)
      (fun l => "biscuit-" ++ l) sampleInit
      [Step.assign "us-west-2", Step.check "us-west-2"]).2 =
      (collectRegionInfo sampleRemote "biscuit-default" "alias/biscuit-default"
        ["us-east-1", "us-west-2"]).2 :=
  ⟨by decide, by decide, by decide, rfl,
    (discoverOrCreateKeys_gate sampleRemote (fun l => "alias/biscuit-" ++ l)
      (fun l => "biscuit-" ++ l) sampleInit [Step.assign "us-west-2", Step.check "us-west-2"]
      (by decide) ⟨"us-east-1", by decide, by decide⟩ ⟨"us-west-2", by decide, by decide⟩
      rfl).1,
    (discoverOrCreateKeys_gate sampleRemote (fun l => "alias/biscuit-" ++ l)
      (fun l => "biscuit-" ++ l) sampleInit [Step.assign "us-west-2", Step.check "us-west-2"]
      (by decide) ⟨"us-east-1", by decide, by decide⟩ ⟨"us-west-2", by decide, by decide⟩
      rfl).2.1,
    (discoverOrCreateKeys_gate sampleRemote (fun l => "alias/biscuit-" ++ l)
      (fun l => "biscuit-" ++ l) sampleInit [Step.assign "us-west-2", Step.check "us-west-2"]
      (by decide) ⟨"us-east-1", by decide, by decide⟩ ⟨"us-west-2", by decide, by decide⟩
      rfl).2.2.1⟩

set_option maxRecDepth 20000 in
/-- C5 (the code departs from it): in a region whose stack exists and whose
alias is listed with a disabled key, `collectRegionInfo` records, after the
disabled-key error, the error saying that the stack exists but the key alias
does not. -/
theorem collectRegionInfo_inconsistent_despite_alias :
    (checkCloudFormationStackExists disabledKeyRemote "biscuit-default" "us-east-1").1 =
      (true, none) ∧
    aliasListed disabledKeyRemote "alias/biscuit-default" "us-east-1" = true ∧
    mapGet (collectRegions disabledKeyRemote "biscuit-default" "alias/biscuit-default"
      ["us-east-1"]).regionErrors "us-east-1" =
      some [disabledKeyError "alias/biscuit-default" "us-east-1",
        inconsistentError "biscuit-default" "alias/biscuit-default" "us-east-1"] := by
  decide

/-- C6, refuted as stated: a region whose stack exists and which lists no
alias is returned in the list of regions needing provisioning. -/
theorem collectRegionInfo_lists_region_with_stack :
    (checkCloudFormationStackExists staleStackRemote "biscuit-default" "us-east-1").1 =
      (true, none) ∧
    aliasListed staleStackRemote "alias/biscuit-default" "us-east-1" = false ∧
    "us-east-1" ∈ (collectRegionInfo staleStackRemote "biscuit-default"
      "alias/biscuit-default" ["us-east-1"]).1.2.1 := by
  decide

/-- C6, amended: the list of regions needing provisioning holds, in order,
exactly the target regions whose alias query ends without error and without
alias ARN, whether or not their stack exists; so every target region that
lists no alias of the name, and whose listing does not fail, is in it. -/
theorem collectRegionInfo_missing (R : Remote) (stackName keyAlias : String)
    (regions : List String) :
    (collectRegionInfo R stackName keyAlias regions).1.2.1 =
      regions.filter (aliasQueryEmpty R keyAlias) ∧
    ∀ r ∈ regions, aliasListed R keyAlias r = false → (R.ListAliasesPages r).2 = none →
      r ∈ (collectRegionInfo R stackName keyAlias regions).1.2.1 := by
  have h : (collectRegionInfo R stackName keyAlias regions).1.2.1 =
      regions.filter (aliasQueryEmpty R keyAlias) := by
    have := (collectRegions_fold R stackName keyAlias regions
      { regionErrors := [], regionKeys := [], regionsMissing := [], calls := [] }).1
    simpa [collectRegionInfo, collectRegions] using this
  refine ⟨h, ?_⟩
  intro r hr hl he
  rw [h, List.mem_filter]
  exact ⟨hr, aliasQueryEmpty_of_not_listed R keyAlias r hl he⟩

/-- C6 as amended, instantiated at a region with a stack and no alias. -/
theorem collectRegionInfo_missing_witness :
    "us-east-1" ∈ ["us-east-1"] ∧
    aliasListed staleStackRemote "alias/biscuit-default" "us-east-1" = false ∧
    (staleStackRemote.ListAliasesPages "us-east-1").2 = none ∧
    "us-east-1" ∈ (collectRegionInfo staleStackRemote "biscuit-default"
      "alias/biscuit-default" ["us-east-1"]).1.2.1 :=
  ⟨by decide, by decide, by decide,
    (collectRegionInfo_missing staleStackRemote "biscuit-default" "alias/biscuit-default"
      ["us-east-1"]).2 "us-east-1" (by decide) (by decide) (by decide)⟩

/-- C7: `collectRegionInfo` returns a non-nil error exactly when some target
region has a region-level error; and whatever errors occur, the requests
sent are the stack query and the alias query of every target region in
order, every region with an alias ARN is recorded in `regionKeys`, and every
region with an empty alias query is recorded in `regionsMissing`. -/
theorem collectRegionInfo_error_iff (R : Remote) (stackName keyAlias : String)
    (regions : List String) :
    ((collectRegionInfo R stackName keyAlias regions).1.2.2 ≠ none ↔
      ∃ r ∈ regions, regionHasError R stackName keyAlias r = true) ∧
    (collectRegionInfo R stackName keyAlias regions).2 =
      (regions.map (fun r => (checkCloudFormationStackExists R stackName r).2 ++
        (checkKmsKeyExists R keyAlias r).2)).flatten ∧
    (∀ r ∈ regions, aliasFound R keyAlias r = true →
      mapGet (collectRegionInfo R stackName keyAlias regions).1.1 r =
        some (checkKmsKeyExists R keyAlias r).1.1) ∧
    (∀ r ∈ regions, aliasQueryEmpty R keyAlias r = true →
      r ∈ (collectRegionInfo R stackName keyAlias regions).1.2.1) := by
  obtain ⟨h1, h2, h3, h4⟩ := collectRegions_fold R stackName keyAlias regions
    { regionErrors := [], regionKeys := [], regionsMissing := [], calls := [] }
  refine ⟨?_, ?_, ?_, ?_⟩
  · simp only [collectRegionInfo, collectRegions, ne_eq, aggregateError_eq_none]
    constructor
    · intro hne
      cases hes : (List.foldl (collectRegion R stackName keyAlias)
        { regionErrors := [], regionKeys := [], regionsMissing := [], calls := [] }
        regions).regionErrors with
      | nil => exact absurd hes hne
      | cons e rest =>
        have := (h3 e.1).1 (by rw [hes]; simp [mapKeys])
        rcases this with h | h
        · simp [mapKeys] at h
        · exact ⟨e.1, h.1, h.2⟩
    · rintro ⟨r, hr, he⟩ h0
      have := (h3 r).2 (Or.inr ⟨hr, he⟩)
      rw [h0] at this
      simp [mapKeys] at this
  · simpa [collectRegionInfo, collectRegions] using h2
  · intro r hr hf
    have := h4 r
    rw [if_pos ⟨hr, hf⟩] at this
    simpa [collectRegionInfo, collectRegions] using this
  · intro r hr hf
    simp only [collectRegionInfo, collectRegions]
    rw [h1]
    simp only [List.nil_append, List.mem_filter]
    exact ⟨hr, hf⟩

/-- C7, instantiated: the disabled key of `us-east-1` is an error, and
`us-west-2`, probed after it, is still recorded as missing. -/
theorem collectRegionInfo_error_iff_witness :
    regionHasError disabledKeyRemote "biscuit-default" "alias/biscuit-default" "us-east-1"
      = true ∧
    (collectRegionInfo disabledKeyRemote "biscuit-default" "alias/biscuit-default"
      ["us-east-1", "us-west-2"]).1.2.2 ≠ none ∧
    "us-west-2" ∈ (collectRegionInfo disabledKeyRemote "biscuit-default"
      "alias/biscuit-default" ["us-east-1", "us-west-2"]).1.2.1 :=
  ⟨by decide,
    (collectRegionInfo_error_iff disabledKeyRemote "biscuit-default" "alias/biscuit-default"
      ["us-east-1", "us-west-2"]).1.2 ⟨"us-east-1", by decide, by decide⟩,
    (collectRegionInfo_error_iff disabledKeyRemote "biscuit-default" "alias/biscuit-default"
      ["us-east-1", "us-west-2"]).2.2.2 "us-west-2" (by decide) (by decide)⟩

/-! ## Lemmas: the caller's principal -/

theorem splitChars_no_sep (sep : Char) (c : List Char) (h : sep ∉ c) :
    splitChars sep c = [c] := by
  induction c with
  | nil => rfl
  | cons x xs ih =>
    have hx : ¬ x = sep := fun e => h (e ▸ List.mem_cons_self _ _)
    have hxs : sep ∉ xs := fun e => h (List.mem_cons_of_mem _ e)
    simp [splitChars, hx, ih hxs]

/-- The piece after the last separator is the last piece. -/
theorem splitChars_append_sep (sep : Char) (s c : List Char) (h : sep ∉ c) :
    ∃ w ws, splitChars sep (s ++ sep :: c) = w :: (ws ++ [c]) := by
  induction s with
  | nil =>
    refine ⟨[], [], ?_⟩
    simp [splitChars, splitChars_no_sep sep c h]
  | cons x xs ih =>
    obtain ⟨w, ws, hw⟩ := ih
    by_cases hx : x = sep
    · refine ⟨[], w :: ws, ?_⟩
      simp [splitChars, hx, hw]
    · refine ⟨x :: w, ws, ?_⟩
      simp [splitChars, hx, hw]

theorem mem_Split_append_comma (s c : String) (h : ',' ∉ c.data) :
    c ∈ strings_Split (s ++ "," ++ c) ',' := by
  unfold strings_Split
  have hd : (s ++ "," ++ c).data = s.data ++ ',' :: c.data := by
    simp [String.data_append]
  obtain ⟨w, ws, hw⟩ := splitChars_append_sep ',' s.data c.data h
  rw [hd, hw]
  simp only [List.map_cons, List.map_append, List.map_nil, List.mem_cons, List.mem_append,
    List.mem_singleton]
  exact Or.inr (Or.inr (Or.inl trivial))

theorem validateArnList_of_mem (l : List String) (x : String) (h : x ∈ l) :
    validateArnList l = none := by
  unfold validateArnList
  have : l.length ≠ 0 := by
    intro h0
    rw [List.length_eq_zero] at h0
    rw [h0] at h
    cases h
  simp [this]

/-! ## Theorems: the caller's principal -/

/-- C11: for every account identifier, every user-supplied list `s` and every
caller principal `c` that starts with `arn:`, holds no comma and is its own
trim, `c` is an element of `cleanArnList account (s + "," + c)`, so
`validateArnList` accepts that list; and `constructArns`, when the identity
service reports such a caller, returns two lists that both hold the caller. -/
theorem caller_in_cleanArnList (account s c : String)
    (harn : strings_HasPrefix c "arn:" = true) (hcomma : ',' ∉ c.data)
    (htrim : strings_TrimSpace c = c) :
    c ∈ cleanArnList account (s ++ "," ++ c) ∧
    validateArnList (cleanArnList account (s ++ "," ++ c)) = none ∧
    ∀ (R : Remote) (w : kmsInit), R.GetCallerIdentity = .ok (account, c) →
      ∃ adminArns userArns,
        constructArns R w = (.ok (adminArns, userArns), [Call.GetCallerIdentity]) ∧
        c ∈ adminArns ∧ c ∈ userArns := by
  have hne : c ≠ "" := by
    rintro rfl
    revert harn
    decide
  have hclean : cleanArn account c = c := by
    have := (cleanArn_cases account c)
    rw [htrim] at this
    rcases this with ⟨h0, _⟩ | ⟨_, _, h⟩ | ⟨_, h1, _⟩
    · exact absurd h0 hne
    · exact h
    · rw [harn] at h1
      cases h1
  have hmem : ∀ t : String, c ∈ cleanArnList account (t ++ "," ++ c) := by
    intro t
    rw [mem_cleanArnList]
    exact ⟨hne, c, mem_Split_append_comma t c hcomma, hclean.symm⟩
  refine ⟨hmem s, validateArnList_of_mem _ c (hmem s), ?_⟩
  intro R w hid
  refine ⟨cleanArnList account (w.administratorArns ++ "," ++ c),
    cleanArnList account (w.userArns ++ "," ++ c), ?_, hmem _, hmem _⟩
  unfold constructArns
  simp only [hid, validateArnList_of_mem _ c (hmem w.administratorArns),
    validateArnList_of_mem _ c (hmem w.userArns)]

/-- C11, instantiated at the caller `arn:aws:iam::123:user/me` of the sample
services. -/
theorem caller_in_cleanArnList_witness :
    strings_HasPrefix "arn:aws:iam::123:user/me" "arn:" = true ∧
    ',' ∉ ("arn:aws:iam::123:user/me" : String).data ∧
    strings_TrimSpace "arn:aws:iam::123:user/me" = "arn:aws:iam::123:user/me" ∧
    "arn:aws:iam::123:user/me" ∈
      cleanArnList "123" ("jeff, role/webserver" ++ "," ++ "arn:aws:iam::123:user/me") ∧
    validateArnList
      (cleanArnList "123" ("jeff, role/webserver" ++ "," ++ "arn:aws:iam::123:user/me")) = none :=
  ⟨by decide, by decide, by decide,
    (caller_in_cleanArnList "123" "jeff, role/webserver" "arn:aws:iam::123:user/me"
      (by decide) (by decide) (by decide)).1,
    (caller_in_cleanArnList "123" "jeff, role/webserver" "arn:aws:iam::123:user/me"
      (by decide) (by decide) (by decide)).2.1⟩

/-! ## Lemmas: grant aggregator -/

theorem n2e_eq_foldl_records (regionGrants : List (String × List GrantListEntry))
    (m : List (String × grantsForOneAlias)) :
    regionGrants.foldl (fun n2e rg => rg.2.foldl (addGrant rg.1) n2e) m =
      (grantRecords regionGrants).foldl (fun m p => addGrant p.1 m p.2) m := by
  induction regionGrants generalizing m with
  | nil => rfl
  | cons rg rest ih =>
    simp only [List.foldl_cons, grantRecords, List.map_cons, List.flatten_cons,
      List.foldl_append, List.foldl_map]
    exact ih _

theorem mem_grantRecords (regionGrants : List (String × List GrantListEntry))
    (r : String) (g : GrantListEntry) :
    (r, g) ∈ grantRecords regionGrants ↔ ∃ gs, (r, gs) ∈ regionGrants ∧ g ∈ gs := by
  simp only [grantRecords, List.mem_flatten, List.mem_map]
  constructor
  · rintro ⟨l, ⟨rg, hrg, rfl⟩, hl⟩
    simp only [List.mem_map, Prod.mk.injEq] at hl
    obtain ⟨g', hg', rfl, rfl⟩ := hl
    exact ⟨rg.2, hrg, hg'⟩
  · rintro ⟨gs, hgs, hg⟩
    exact ⟨gs.map (fun g => (r, g)), ⟨(r, gs), hgs, rfl⟩, List.mem_map.2 ⟨g, hg, rfl⟩⟩

theorem addGrant_keys (r : String) (m : List (String × grantsForOneAlias)) (g : GrantListEntry)
    (x : String) : x ∈ mapKeys (addGrant r m g) ↔ x = g.Name ∨ x ∈ mapKeys m := by
  unfold addGrant
  cases mapGet m g.Name with
  | none => exact mapKeys_mapSet_mem _ _ _ _
  | some e => exact mapKeys_mapSet_mem _ _ _ _

theorem addGrant_nodup (r : String) (m : List (String × grantsForOneAlias)) (g : GrantListEntry)
    (h : (mapKeys m).Nodup) : (mapKeys (addGrant r m g)).Nodup := by
  unfold addGrant
  cases mapGet m g.Name with
  | none => exact mapSet_nodup _ _ _ h
  | some e => exact mapSet_nodup _ _ _ h

theorem addGrant_grantIdAt (r : String) (m : List (String × grantsForOneAlias))
    (g : GrantListEntry) (n r' : String) :
    grantIdAt (addGrant r m g) n r' =
      if r = r' ∧ g.Name = n then some g.GrantId else grantIdAt m n r' := by
  unfold addGrant grantIdAt
  by_cases hn : g.Name = n
  · subst hn
    cases hg : mapGet m g.Name with
    | none =>
      simp only [mapGet_mapSet, if_true, Option.bind_some, Option.bind_none]
      by_cases hr : r = r'
      · simp [hr, mapSet, mapGet]
      · simp [hr, mapSet, mapGet]
    | some e =>
      simp only [mapGet_mapSet, if_true, Option.bind_some]
      by_cases hr : r = r'
      · simp [hr, mapGet_mapSet]
      · simp [hr, mapGet_mapSet]
  · cases mapGet m g.Name with
    | none => simp [mapGet_mapSet, hn]
    | some e => simp [mapGet_mapSet, hn]

/-- The fold over the grant records, from any starting map. -/
theorem foldl_addGrant (records : List (String × GrantListEntry))
    (m : List (String × grantsForOneAlias)) :
    ((mapKeys m).Nodup →
      (mapKeys (records.foldl (fun m p => addGrant p.1 m p.2) m)).Nodup) ∧
    (∀ x, x ∈ mapKeys (records.foldl (fun m p => addGrant p.1 m p.2) m) ↔
      x ∈ mapKeys m ∨ ∃ p ∈ records, p.2.Name = x) ∧
    (∀ n r, grantIdAt (records.foldl (fun m p => addGrant p.1 m p.2) m) n r =
      records.foldl
        (fun acc p => if p.1 = r ∧ p.2.Name = n then some p.2.GrantId else acc)
        (grantIdAt m n r)) := by
  induction records generalizing m with
  | nil => simp
  | cons p rest ih =>
    simp only [List.foldl_cons]
    obtain ⟨h1, h2, h3⟩ := ih (addGrant p.1 m p.2)
    refine ⟨fun h => h1 (addGrant_nodup _ _ _ h), ?_, ?_⟩
    · intro x
      rw [h2, addGrant_keys]
      simp only [List.mem_cons, exists_eq_or_imp]
      constructor
      · rintro ((h | h) | h)
        · exact Or.inr (Or.inl h.symm)
        · exact Or.inl h
        · exact Or.inr (Or.inr h)
      · rintro (h | h | h)
        · exact Or.inl (Or.inr h)
        · exact Or.inl (Or.inl h.symm)
        · exact Or.inr h
    · intro n r
      rw [h3, addGrant_grantIdAt]

/-- The last identifier is the common identifier of the matching records. -/
theorem foldl_lastId_of_agree (records : List (String × GrantListEntry)) (n r id : String)
    (acc : Option String)
    (hagree : ∀ p ∈ records, p.1 = r → p.2.Name = n → p.2.GrantId = id)
    (h : acc = some id ∨ ∃ p ∈ records, p.1 = r ∧ p.2.Name = n) :
    records.foldl
      (fun acc p => if p.1 = r ∧ p.2.Name = n then some p.2.GrantId else acc) acc =
      some id := by
  induction records generalizing acc with
  | nil =>
    rcases h with h | ⟨p, hp, _⟩
    · exact h
    · cases hp
  | cons q rest ih =>
    simp only [List.foldl_cons]
    apply ih _ (fun p hp => hagree p (List.mem_cons_of_mem _ hp))
    by_cases hq : q.1 = r ∧ q.2.Name = n
    · left
      rw [if_pos hq, hagree q (List.mem_cons_self _ _) hq.1 hq.2]
    · rw [if_neg hq]
      rcases h with h | ⟨p, hp, hm⟩
      · exact Or.inl h
      · rcases List.mem_cons.1 hp with rfl | hp
        · exact absurd hm hq
        · exact Or.inr ⟨p, hp, hm⟩

/-! ## Theorems: grant aggregator -/

/-- C12, refuted as stated: when one region lists two grants of one name, the
entry of that name maps the region to the identifier of the second only: the
first grant occurs in the region, and the region is not mapped to its
identifier. -/
theorem n2e_keeps_last_grant_of_region :
    sampleGrant "deploy" "g1" ∈ [sampleGrant "deploy" "g1", sampleGrant "deploy" "g2"] ∧
    grantIdAt (n2e [("us-east-1", [sampleGrant "deploy" "g1", sampleGrant "deploy" "g2"])])
      "deploy" "us-east-1" ≠ some (sampleGrant "deploy" "g1").GrantId ∧
    (n2e [("us-east-1", [sampleGrant "deploy" "g1", sampleGrant "deploy" "g2"])]).map
      (fun e => (e.1, e.2.GrantIds)) = [("deploy", [("us-east-1", "g2")])] := by
  decide

/-- C12, amended: for every per-region grant listing of one alias, `n2e` has
exactly one entry per distinct grant name; the entry of a name maps each
region to the identifier of the last grant of that name listed for that
region, and maps no region that lists no grant of that name; so a region is
mapped to the identifier of a grant listed for it whenever all grants of
that name listed for the region have that identifier. Two records of one
name in `us-east-1` (`g1`) and `eu-west-1` (`g2`) give one entry with
`GrantIds = {us-east-1: g1, eu-west-1: g2}`. -/
theorem n2e_groups_by_name (regionGrants : List (String × List GrantListEntry)) :
    (mapKeys (n2e regionGrants)).Nodup ∧
    (∀ n, n ∈ mapKeys (n2e regionGrants) ↔
      ∃ r gs g, (r, gs) ∈ regionGrants ∧ g ∈ gs ∧ g.Name = n) ∧
    (∀ n e, mapGet (n2e regionGrants) n = some e →
      ∀ r, mapGet e.GrantIds r = lastGrantId (grantRecords regionGrants) n r) ∧
    (∀ r gs g, (r, gs) ∈ regionGrants → g ∈ gs →
      (∀ gs' g', (r, gs') ∈ regionGrants → g' ∈ gs' → g'.Name = g.Name →
        g'.GrantId = g.GrantId) →
      ∃ e, mapGet (n2e regionGrants) g.Name = some e ∧
        mapGet e.GrantIds r = some g.GrantId) ∧
    (n2e [("us-east-1", [sampleGrant "deploy" "g1"]),
        ("eu-west-1", [sampleGrant "deploy" "g2"])]).map (fun e => (e.1, e.2.GrantIds)) =
      [("deploy", [("us-east-1", "g1"), ("eu-west-1", "g2")])] := by
  obtain ⟨h1, h2, h3⟩ := foldl_addGrant (grantRecords regionGrants) []
  have hn : n2e regionGrants =
      (grantRecords regionGrants).foldl (fun m p => addGrant p.1 m p.2) [] :=
    n2e_eq_foldl_records regionGrants []
  have hids : ∀ n e, mapGet (n2e regionGrants) n = some e →
      ∀ r, mapGet e.GrantIds r = lastGrantId (grantRecords regionGrants) n r := by
    intro n e he r
    have := h3 n r
    rw [← hn] at this
    have hb : grantIdAt (n2e regionGrants) n r = mapGet e.GrantIds r := by
      simp [grantIdAt, he]
    have h0 : grantIdAt [] n r = none := rfl
    rw [← hb, this, h0]
    rfl
  have hkeys : ∀ n, n ∈ mapKeys (n2e regionGrants) ↔
      ∃ r gs g, (r, gs) ∈ regionGrants ∧ g ∈ gs ∧ g.Name = n := by
    intro n
    rw [hn, h2]
    simp only [mapKeys, List.map_nil, List.not_mem_nil, false_or]
    constructor
    · rintro ⟨⟨r, g⟩, hp, hname⟩
      obtain ⟨gs, hgs, hg⟩ := (mem_grantRecords regionGrants r g).1 hp
      exact ⟨r, gs, g, hgs, hg, hname⟩
    · rintro ⟨r, gs, g, hgs, hg, hname⟩
      exact ⟨(r, g), (mem_grantRecords regionGrants r g).2 ⟨gs, hgs, hg⟩, hname⟩
  refine ⟨?_, hkeys, hids, ?_, by decide⟩
  · rw [hn]
    exact h1 List.nodup_nil
  · intro r gs g hgs hg hagree
    have hmem : g.Name ∈ mapKeys (n2e regionGrants) := (hkeys g.Name).2 ⟨r, gs, g, hgs, hg, rfl⟩
    cases he : mapGet (n2e regionGrants) g.Name with
    | none => exact absurd hmem ((mapGet_eq_none _ _).1 he)
    | some e =>
      refine ⟨e, rfl, ?_⟩
      rw [hids g.Name e he r]
      apply foldl_lastId_of_agree
      · rintro ⟨r', g'⟩ hp hr hname
        obtain ⟨gs', hgs', hg'⟩ := (mem_grantRecords regionGrants r' g').1 hp
        simp only at hr hname
        subst hr
        exact hagree gs' g' hgs' hg' hname
      · exact Or.inr ⟨(r, g), (mem_grantRecords regionGrants r g).2 ⟨gs, hgs, hg⟩, rfl, rfl⟩

/-- C12 as amended, instantiated: in a listing whose first region lists two
grants of one name, the second region is mapped to the identifier of its only
grant of that name. -/
theorem n2e_groups_by_name_witness :
    ("eu-west-1", [sampleGrant "deploy" "g3"]) ∈
      [("us-east-1", [sampleGrant "deploy" "g1", sampleGrant "deploy" "g2"]),
       ("eu-west-1", [sampleGrant "deploy" "g3"])] ∧
    sampleGrant "deploy" "g3" ∈ [sampleGrant "deploy" "g3"] ∧
    ∃ e, mapGet (n2e [("us-east-1", [sampleGrant "deploy" "g1", sampleGrant "deploy" "g2"]),
        ("eu-west-1", [sampleGrant "deploy" "g3"])]) (sampleGrant "deploy" "g3").Name = some e ∧
      mapGet e.GrantIds "eu-west-1" = some (sampleGrant "deploy" "g3").GrantId :=
  ⟨by decide, by decide,
    (n2e_groups_by_name [("us-east-1", [sampleGrant "deploy" "g1", sampleGrant "deploy" "g2"]),
      ("eu-west-1", [sampleGrant "deploy" "g3"])]).2.2.2.1 "eu-west-1"
      [sampleGrant "deploy" "g3"] (sampleGrant "deploy" "g3") (by decide) (by decide)
      (by
        intro gs' g' hgs' hg' _
        have hgs : gs' = [sampleGrant "deploy" "g3"] := by
          simp only [List.mem_cons, Prod.mk.injEq, List.mem_singleton] at hgs'
          rcases hgs' with ⟨h, _⟩ | ⟨_, h⟩ | h
          · exact absurd h (by decide)
          · exact h
          · cases h
        subst hgs
        rw [List.mem_singleton.1 hg'])⟩

/-! ## Lemmas: concurrent provisioner -/

theorem rangeErrs_some (errs : List String) (e : String) :
    ∃ x, rangeErrs (some e) errs = some x := by
  induction errs generalizing e with
  | nil => exact ⟨e, rfl⟩
  | cons y rest ih => exact ih y

theorem rangeErrs_of_ne_nil (err : Option String) (errs : List String) (h : errs ≠ []) :
    ∃ x, rangeErrs err errs = some x := by
  cases errs with
  | nil => exact absurd rfl h
  | cons y rest => exact rangeErrs_some rest y

/-- While every assignment made is that of a successful creation, the shared
`err` stays nil, nothing is sent on `errs`, and the map holds the new alias of
every region assigned besides what it held. -/
theorem goroutines_all_succeed (R : Remote) (w : kmsInit) (stackName aliasName : String)
    (admins users : List String) (l : List Step) (st : Provisioning)
    (herr : st.err = none) (herrs : st.errs = [])
    (hok : ∀ r, Step.assign r ∈ l →
      (createKeyInRegion R w r stackName aliasName admins users).1.2 = none) :
    (l.foldl (goroutineStep R w stackName aliasName admins users) st).err = none ∧
    (l.foldl (goroutineStep R w stackName aliasName admins users) st).errs = [] ∧
    ∀ x, mapGet (l.foldl (goroutineStep R w stackName aliasName admins users)
        st).existingAliases x =
      if Step.assign x ∈ l then
        some (createKeyInRegion R w x stackName aliasName admins users).1.1
      else mapGet st.existingAliases x := by
  induction l generalizing st with
  | nil => simp [herr, herrs]
  | cons s rest ih =>
    simp only [List.foldl_cons]
    cases s with
    | assign r =>
      have hr := hok r (List.mem_cons_self _ _)
      obtain ⟨h1, h2, h3⟩ := ih (goroutineStep R w stackName aliasName admins users st
        (Step.assign r)) (by simp [goroutineStep, hr]) (by simp [goroutineStep, herrs])
        (fun x hx => hok x (List.mem_cons_of_mem _ hx))
      refine ⟨h1, h2, ?_⟩
      intro x
      rw [h3 x]
      by_cases hx : Step.assign x ∈ rest
      · simp [hx]
      · by_cases hrx : r = x
        · subst hrx
          simp [hx, goroutineStep, mapGet_mapSet]
        · have : ¬ x = r := fun h => hrx h.symm
          simp [hx, goroutineStep, mapGet_mapSet, hrx, this]
    | check r =>
      have hst : goroutineStep R w stackName aliasName admins users st (Step.check r) = st := by
        simp [goroutineStep, herr]
      rw [hst]
      obtain ⟨h1, h2, h3⟩ := ih st herr herrs (fun x hx => hok x (List.mem_cons_of_mem _ hx))
      refine ⟨h1, h2, ?_⟩
      intro x
      rw [h3 x]
      simp

theorem isSchedule_assign_mem (regions : List String) (sched : List Step)
    (h : isSchedule regions sched = true) (r : String) :
    Step.assign r ∈ sched ↔ r ∈ regions := by
  unfold isSchedule at h
  simp only [Bool.and_eq_true, decide_eq_true_eq] at h
  rw [h.1.mem_iff]
  simp only [List.mem_flatten, List.mem_map]
  constructor
  · rintro ⟨l, ⟨x, hx, rfl⟩, hl⟩
    simp only [List.mem_cons, Step.assign.injEq, List.mem_singleton, reduceCtorEq, or_false,
      List.not_mem_nil] at hl
    rw [hl]
    exact hx
  · intro hr
    exact ⟨_, ⟨r, hr, rfl⟩, List.mem_cons_self _ _⟩

/-- The part of the provisioning phase that holds under every schedule: when
probing ends without error, the phase runs, the principal lists are built and
every creation succeeds, `discoverOrCreateKeys` returns the map that gives
every missing region its new alias and keeps the pre-existing keys. -/
theorem discoverOrCreateKeys_all_created (R : Remote)
    (kmsAliasName cfStackName : String → String) (w : kmsInit) (sched : List Step)
    (adminArns userArns : List String) (calls : List Call)
    (hprobe : (collectRegionInfo R (cfStackName w.label) (kmsAliasName w.label)
      w.regions).1.2.2 = none)
    (hrun : (collectRegionInfo R (cfStackName w.label) (kmsAliasName w.label)
      w.regions).1.1.length = 0 ∨ w.createMissingKeys = true)
    (hid : constructArns R w = (.ok (adminArns, userArns), calls))
    (hsched : isSchedule (collectRegionInfo R (cfStackName w.label) (kmsAliasName w.label)
      w.regions).1.2.1 sched = true)
    (hok : ∀ r ∈ (collectRegionInfo R (cfStackName w.label) (kmsAliasName w.label)
      w.regions).1.2.1,
      (createKeyInRegion R w r (cfStackName w.label) (kmsAliasName w.label)
        adminArns userArns).1.2 = none) :
    ∃ m, (discoverOrCreateKeys R kmsAliasName cfStackName w sched).1 = (some m, none) ∧
      (∀ r ∈ (collectRegionInfo R (cfStackName w.label) (kmsAliasName w.label)
          w.regions).1.2.1,
        mapGet m r = some (createKeyInRegion R w r (cfStackName w.label)
          (kmsAliasName w.label) adminArns userArns).1.1) ∧
      (∀ r, r ∉ (collectRegionInfo R (cfStackName w.label) (kmsAliasName w.label)
          w.regions).1.2.1 →
        mapGet m r = mapGet (collectRegionInfo R (cfStackName w.label)
          (kmsAliasName w.label) w.regions).1.1 r) := by
  obtain ⟨h1, h2, h3⟩ := goroutines_all_succeed R w (cfStackName w.label)
    (kmsAliasName w.label) adminArns userArns sched
    { existingAliases := (collectRegionInfo R (cfStackName w.label) (kmsAliasName w.label)
        w.regions).1.1,
      err := none, errs := [],
      calls := (collectRegionInfo R (cfStackName w.label) (kmsAliasName w.label)
        w.regions).2 ++ calls }
    rfl rfl (fun r hr => hok r ((isSchedule_assign_mem _ _ hsched r).1 hr))
  refine ⟨(sched.foldl (goroutineStep R w (cfStackName w.label) (kmsAliasName w.label)
    adminArns userArns)
    { existingAliases := (collectRegionInfo R (cfStackName w.label) (kmsAliasName w.label)
        w.regions).1.1,
      err := none, errs := [],
      calls := (collectRegionInfo R (cfStackName w.label) (kmsAliasName w.label)
        w.regions).2 ++ calls }).existingAliases, ?_, ?_, ?_⟩
  · unfold discoverOrCreateKeys
    simp only [hprobe, hid]
    have hgate : ¬ ((decide ((collectRegionInfo R (cfStackName w.label) (kmsAliasName w.label)
        w.regions).1.1.length > 0) &&
        decide ((collectRegionInfo R (cfStackName w.label) (kmsAliasName w.label)
          w.regions).1.2.1.length > 0) && !w.createMissingKeys) = true) := by
      rcases hrun with h | h
      · simp [h]
      · simp [h]
    have hphase : (decide ((collectRegionInfo R (cfStackName w.label) (kmsAliasName w.label)
        w.regions).1.1.length = 0) || w.createMissingKeys) = true := by
      rcases hrun with h | h
      · simp [h]
      · simp [h]
    rw [if_neg hgate, if_pos hphase]
    simp only [h1, h2, rangeErrs, List.foldl_nil]
  · intro r hr
    rw [h3 r, if_pos ((isSchedule_assign_mem _ _ hsched r).2 hr)]
  · intro r hr
    rw [h3 r, if_neg (fun h => hr ((isSchedule_assign_mem _ _ hsched r).1 h))]

/-- Goroutines that run to completion one after another send one error per
failed creation. -/
theorem unitSchedule_errs (R : Remote) (w : kmsInit) (stackName aliasName : String)
    (admins users : List String) (order : List String) (st : Provisioning) :
    ((unitSchedule order).foldl (goroutineStep R w stackName aliasName admins users)
      st).errs =
      st.errs ++ order.filterMap (fun r =>
        (createKeyInRegion R w r stackName aliasName admins users).1.2.map
          (fun e => r ++ ": " ++ e)) := by
  induction order generalizing st with
  | nil => simp [unitSchedule]
  | cons r rest ih =>
    have hu : unitSchedule (r :: rest) =
        Step.assign r :: Step.check r :: unitSchedule rest := by
      simp [unitSchedule]
    rw [hu]
    simp only [List.foldl_cons]
    rw [ih]
    cases hc : (createKeyInRegion R w r stackName aliasName admins users).1.2 with
    | none => simp [goroutineStep, hc]
    | some e => simp [goroutineStep, hc]

/-- The part of the first half that holds: when the goroutines run to
completion one after another, in any order, a failed creation makes
`discoverOrCreateKeys` return an error and no map. -/
theorem discoverOrCreateKeys_unit_failure (R : Remote)
    (kmsAliasName cfStackName : String → String) (w : kmsInit) (order : List String)
    (adminArns userArns : List String) (calls : List Call)
    (hprobe : (collectRegionInfo R (cfStackName w.label) (kmsAliasName w.label)
      w.regions).1.2.2 = none)
    (hrun : (collectRegionInfo R (cfStackName w.label) (kmsAliasName w.label)
      w.regions).1.1.length = 0 ∨ w.createMissingKeys = true)
    (hid : constructArns R w = (.ok (adminArns, userArns), calls))
    (horder : order.Perm (collectRegionInfo R (cfStackName w.label) (kmsAliasName w.label)
      w.regions).1.2.1)
    (hfail : ∃ r ∈ (collectRegionInfo R (cfStackName w.label) (kmsAliasName w.label)
      w.regions).1.2.1,
      (createKeyInRegion R w r (cfStackName w.label) (kmsAliasName w.label)
        adminArns userArns).1.2 ≠ none) :
    (discoverOrCreateKeys R kmsAliasName cfStackName w (unitSchedule order)).1.1 = none ∧
    (discoverOrCreateKeys R kmsAliasName cfStackName w (unitSchedule order)).1.2 ≠ none := by
  have herrs := unitSchedule_errs R w (cfStackName w.label) (kmsAliasName w.label)
    adminArns userArns order
    { existingAliases := (collectRegionInfo R (cfStackName w.label) (kmsAliasName w.label)
        w.regions).1.1,
      err := none, errs := [],
      calls := (collectRegionInfo R (cfStackName w.label) (kmsAliasName w.label)
        w.regions).2 ++ calls }
  have hne : order.filterMap (fun r =>
      (createKeyInRegion R w r (cfStackName w.label) (kmsAliasName w.label)
        adminArns userArns).1.2.map (fun e => r ++ ": " ++ e)) ≠ [] := by
    obtain ⟨r, hr, hf⟩ := hfail
    obtain ⟨e, he⟩ := Option.ne_none_iff_exists'.1 hf
    intro h0
    have : r ++ ": " ++ e ∈ order.filterMap (fun r =>
        (createKeyInRegion R w r (cfStackName w.label) (kmsAliasName w.label)
          adminArns userArns).1.2.map (fun e => r ++ ": " ++ e)) := by
      rw [List.mem_filterMap]
      exact ⟨r, horder.mem_iff.2 hr, by simp [he]⟩
    rw [h0] at this
    cases this
  have hres : ∃ x, (discoverOrCreateKeys R kmsAliasName cfStackName w (unitSchedule order)).1 =
      (none, some x) := by
    unfold discoverOrCreateKeys
    simp only [hprobe, hid]
    have hgate : ¬ ((decide ((collectRegionInfo R (cfStackName w.label) (kmsAliasName w.label)
        w.regions).1.1.length > 0) &&
        decide ((collectRegionInfo R (cfStackName w.label) (kmsAliasName w.label)
          w.regions).1.2.1.length > 0) && !w.createMissingKeys) = true) := by
      rcases hrun with h | h
      · simp [h]
      · simp [h]
    have hphase : (decide ((collectRegionInfo R (cfStackName w.label) (kmsAliasName w.label)
        w.regions).1.1.length = 0) || w.createMissingKeys) = true := by
      rcases hrun with h | h
      · simp [h]
      · simp [h]
    rw [if_neg hgate, if_pos hphase]
    simp only [herrs, List.nil_append]
    obtain ⟨x, hx⟩ := rangeErrs_of_ne_nil
      ((unitSchedule order).foldl (goroutineStep R w (cfStackName w.label)
        (kmsAliasName w.label) adminArns userArns)
        { existingAliases := (collectRegionInfo R (cfStackName w.label) (kmsAliasName w.label)
            w.regions).1.1,
          err := none, errs := [],
          calls := (collectRegionInfo R (cfStackName w.label) (kmsAliasName w.label)
            w.regions).2 ++ calls }).err _ hne
    rw [hx]
    exact ⟨x, rfl⟩
  obtain ⟨x, hx⟩ := hres
  rw [hx]
  exact ⟨rfl, by simp⟩

/-! ## Theorems: concurrent provisioner -/

set_option maxRecDepth 20000 in
/-- C13 (the code departs from it): the goroutines assign the result of
`createKeyInRegion` to one shared variable `err`. With the regions `eu-west-1`
and `us-west-2` both missing, creation refused in `eu-west-1` and successful
in `us-west-2`, and the goroutine of `us-west-2` assigning between the
assignment and the test of the goroutine of `eu-west-1`, no error is sent on
`errs`, and `discoverOrCreateKeys` returns a nil error with a map that gives
`eu-west-1` the empty string. When the two goroutines run one after the other
the same failure is reported. -/
theorem discoverOrCreateKeys_loses_error :
    (collectRegionInfo raceRemote "biscuit-default" "alias/biscuit-default"
      raceInit.regions).1 = ([], ["eu-west-1", "us-west-2"], none) ∧
    (createKeyInRegion raceRemote raceInit "eu-west-1" "biscuit-default"
      "alias/biscuit-default" ["arn:aws:iam::123:user/me"] ["arn:aws:iam::123:user/me"]).1 =
      ("", some "AccessDenied") ∧
    isSchedule ["eu-west-1", "us-west-2"]
      [Step.assign "eu-west-1", Step.assign "us-west-2", Step.check "eu-west-1",
       Step.check "us-west-2"] = true ∧
    (discoverOrCreateKeys raceRemote (fun l => "alias/biscuit-" ++ l)
      (fun l => "biscuit-" ++ l) raceInit
      [Step.assign "eu-west-1", Step.assign "us-west-2", Step.check "eu-west-1",
       Step.check "us-west-2"]).1 =
      (some [("eu-west-1", ""),
        ("us-west-2", "arn:aws:kms:us-west-2:123:alias/biscuit-default")], none) ∧
    (discoverOrCreateKeys raceRemote (fun l => "alias/biscuit-" ++ l)
      (fun l => "biscuit-" ++ l) raceInit
      [Step.assign "eu-west-1", Step.check "eu-west-1", Step.assign "us-west-2",
       Step.check "us-west-2"]).1 = (none, some "eu-west-1: AccessDenied") := by
  decide

end Biscuit
